import Mathlib

/-
Verification of the voxel-grid algorithm layer of the Visualization_Voxels_3D
repository: surface-face extraction with parity-based face deduplication
(ProcessVoxelDataOperator.execute and ProcessVoxelDataOperatorComplete.execute),
flood-fill connected-component counting (find_connected_components) and
enclosed-cavity counting (find_bubbles), all over a dense 3D binary occupancy
grid.  The embedding keeps the source structure: the grid is a shape plus a
value function, the neighbor-offset tables are the literal class-attribute
lists, the breadth-first search is a worklist loop over an explicit visited
set threaded through a state record (so that non-mutation of the grid is a
provable frame property), and the mesh builder reproduces the vertex-map and
face-count bookkeeping of the deduplicated extraction path.
-/

namespace Voxel

/-- A cell position of the 3D grid, as a triple of array indices. -/
abbrev Cell := Nat × Nat × Nat

/-- A neighbor offset, one entry of the connectivity tables. -/
abbrev Offset := Int × Int × Int

/-- The 3D occupancy grid: shape and cell values.  The value function is only
ever consulted at in-bounds indices; values are the numpy array entries. -/
structure Grid where
  sx : Nat
  sy : Nat
  sz : Nat
  val : Nat → Nat → Nat → Nat

/-- Grid invariant of the data model: every in-bounds cell is 0 or 1. -/
def Binary (g : Grid) : Prop :=
  ∀ x < g.sx, ∀ y < g.sy, ∀ z < g.sz, g.val x y z ≤ 1

instance (g : Grid) : Decidable (Binary g) := by
  unfold Binary; infer_instance

/-- In-bounds test on signed indices, as in the source bounds checks
0 less-equal nx less than shape. -/
def inB (g : Grid) (x y z : Int) : Prop :=
  0 ≤ x ∧ x < (g.sx : Int) ∧ 0 ≤ y ∧ y < (g.sy : Int) ∧ 0 ≤ z ∧ z < (g.sz : Int)

instance (g : Grid) (x y z : Int) : Decidable (inB g x y z) := by
  unfold inB; infer_instance

/-- NEIGHBORS_6 class attribute: the six face-adjacent unit offsets, in source
order. -/
def NEIGHBORS_6 : List Offset :=
  [(1, 0, 0), (-1, 0, 0), (0, 1, 0), (0, -1, 0), (0, 0, 1), (0, 0, -1)]

/-- The triple comprehension over x, y, z in the three-element range -1, 0, 1
used by the NEIGHBORS_18 and NEIGHBORS_26 class attributes. -/
def offsetCube : List Offset :=
  ([-1, 0, 1] : List Int).flatMap fun x =>
    ([-1, 0, 1] : List Int).flatMap fun y =>
      ([-1, 0, 1] : List Int).map fun z => (x, y, z)

/-- NEIGHBORS_18 class attribute: nonzero offsets of the cube with Manhattan
norm at most 2. -/
def NEIGHBORS_18 : List Offset :=
  offsetCube.filter fun p =>
    decide (p ≠ (0, 0, 0) ∧ p.1.natAbs + p.2.1.natAbs + p.2.2.natAbs ≤ 2)

/-- NEIGHBORS_26 class attribute: all nonzero offsets of the cube. -/
def NEIGHBORS_26 : List Offset :=
  offsetCube.filter fun p => decide (p ≠ (0, 0, 0))

/-- Claim C8 spec predicate for the six face offsets: plus or minus one on
exactly one axis, zero elsewhere. -/
def isFaceOffset (d : Offset) : Prop :=
  ((d.1 = 1 ∨ d.1 = -1) ∧ d.2.1 = 0 ∧ d.2.2 = 0) ∨
  (d.1 = 0 ∧ (d.2.1 = 1 ∨ d.2.1 = -1) ∧ d.2.2 = 0) ∨
  (d.1 = 0 ∧ d.2.1 = 0 ∧ (d.2.2 = 1 ∨ d.2.2 = -1))

/-- Claim C8 spec predicate for the 18-connectivity offsets. -/
def is18Offset (d : Offset) : Prop :=
  d ≠ (0, 0, 0) ∧ d.1.natAbs ≤ 1 ∧ d.2.1.natAbs ≤ 1 ∧ d.2.2.natAbs ≤ 1 ∧
    d.1.natAbs + d.2.1.natAbs + d.2.2.natAbs ≤ 2

/-- Claim C8 spec predicate for the 26-connectivity offsets. -/
def is26Offset (d : Offset) : Prop :=
  d ≠ (0, 0, 0) ∧ d.1.natAbs ≤ 1 ∧ d.2.1.natAbs ≤ 1 ∧ d.2.2.natAbs ≤ 1

instance (d : Offset) : Decidable (isFaceOffset d) := by
  unfold isFaceOffset; infer_instance

instance (d : Offset) : Decidable (is18Offset d) := by
  unfold is18Offset; infer_instance

instance (d : Offset) : Decidable (is26Offset d) := by
  unfold is26Offset; infer_instance

lemma mem_n6_bounded : ∀ d ∈ NEIGHBORS_6, d.1.natAbs ≤ 1 ∧ d.2.1.natAbs ≤ 1 ∧ d.2.2.natAbs ≤ 1 := by
  decide

lemma mem_n18_bounded : ∀ d ∈ NEIGHBORS_18, d.1.natAbs ≤ 1 ∧ d.2.1.natAbs ≤ 1 ∧ d.2.2.natAbs ≤ 1 := by
  decide

lemma mem_n26_bounded : ∀ d ∈ NEIGHBORS_26, d.1.natAbs ≤ 1 ∧ d.2.1.natAbs ≤ 1 ∧ d.2.2.natAbs ≤ 1 := by
  decide

lemma n6_iff (d : Offset) : d ∈ NEIGHBORS_6 ↔ isFaceOffset d := by
  obtain ⟨x, y, z⟩ := d
  by_cases hb : x.natAbs ≤ 1 ∧ y.natAbs ≤ 1 ∧ z.natAbs ≤ 1
  · obtain ⟨hx, hy, hz⟩ := hb
    have hx1 : -1 ≤ x ∧ x ≤ 1 := by omega
    have hy1 : -1 ≤ y ∧ y ≤ 1 := by omega
    have hz1 : -1 ≤ z ∧ z ≤ 1 := by omega
    obtain ⟨hx1, hx2⟩ := hx1
    obtain ⟨hy1, hy2⟩ := hy1
    obtain ⟨hz1, hz2⟩ := hz1
    interval_cases x <;> interval_cases y <;> interval_cases z <;> decide
  · constructor
    · intro h; exact absurd (mem_n6_bounded _ h) hb
    · intro h
      exfalso
      simp only [isFaceOffset] at h
      omega

lemma n18_iff (d : Offset) : d ∈ NEIGHBORS_18 ↔ is18Offset d := by
  obtain ⟨x, y, z⟩ := d
  by_cases hb : x.natAbs ≤ 1 ∧ y.natAbs ≤ 1 ∧ z.natAbs ≤ 1
  · obtain ⟨hx, hy, hz⟩ := hb
    have hx1 : -1 ≤ x ∧ x ≤ 1 := by omega
    have hy1 : -1 ≤ y ∧ y ≤ 1 := by omega
    have hz1 : -1 ≤ z ∧ z ≤ 1 := by omega
    obtain ⟨hx1, hx2⟩ := hx1
    obtain ⟨hy1, hy2⟩ := hy1
    obtain ⟨hz1, hz2⟩ := hz1
    interval_cases x <;> interval_cases y <;> interval_cases z <;> decide
  · constructor
    · intro h; exact absurd (mem_n18_bounded _ h) hb
    · intro h
      exact absurd ⟨h.2.1, h.2.2.1, h.2.2.2.1⟩ hb

lemma n26_iff (d : Offset) : d ∈ NEIGHBORS_26 ↔ is26Offset d := by
  obtain ⟨x, y, z⟩ := d
  by_cases hb : x.natAbs ≤ 1 ∧ y.natAbs ≤ 1 ∧ z.natAbs ≤ 1
  · obtain ⟨hx, hy, hz⟩ := hb
    have hx1 : -1 ≤ x ∧ x ≤ 1 := by omega
    have hy1 : -1 ≤ y ∧ y ≤ 1 := by omega
    have hz1 : -1 ≤ z ∧ z ≤ 1 := by omega
    obtain ⟨hx1, hx2⟩ := hx1
    obtain ⟨hy1, hy2⟩ := hy1
    obtain ⟨hz1, hz2⟩ := hz1
    interval_cases x <;> interval_cases y <;> interval_cases z <;> decide
  · constructor
    · intro h; exact absurd (mem_n26_bounded _ h) hb
    · intro h
      exact absurd ⟨h.2.1, h.2.2.1, h.2.2.2⟩ hb

/-- The padded array of the deduplicated extraction path: a zero layer of
thickness one around the data, so padded index a corresponds to data index
a - 1. -/
def paddedVal (g : Grid) (a b c : Nat) : Nat :=
  if 1 ≤ a ∧ a ≤ g.sx ∧ 1 ≤ b ∧ b ≤ g.sy ∧ 1 ≤ c ∧ c ≤ g.sz then
    g.val (a - 1) (b - 1) (c - 1)
  else 0

/-- The slice-based 6-neighbor sum of the deduplicated path, read at data
index (i, j, k): the six shifted slices of the padded array evaluated at that
position. -/
def neighborSum (g : Grid) (i j k : Nat) : Nat :=
  paddedVal g i (j + 1) (k + 1) + paddedVal g (i + 2) (j + 1) (k + 1) +
  paddedVal g (i + 1) j (k + 1) + paddedVal g (i + 1) (j + 2) (k + 1) +
  paddedVal g (i + 1) (j + 1) k + paddedVal g (i + 1) (j + 1) (k + 2)

/-- The surface-voxel mask of the deduplicated extraction path: occupied with
fewer than six occupied face neighbors. -/
def surface_voxels (g : Grid) (i j k : Nat) : Prop :=
  g.val i j k = 1 ∧ neighborSum g i j k < 6

instance (g : Grid) (i j k : Nat) : Decidable (surface_voxels g i j k) := by
  unfold surface_voxels; infer_instance

/-- Spec-side neighbor value: the value one offset away, with out-of-bounds
positions counted as 0 (the conceptual zero padding). -/
def nbrVal (g : Grid) (i j k : Nat) (d : Offset) : Nat :=
  if inB g ((i : Int) + d.1) ((j : Int) + d.2.1) ((k : Int) + d.2.2) then
    g.val ((i : Int) + d.1).toNat ((j : Int) + d.2.1).toNat ((k : Int) + d.2.2).toNat
  else 0

/-- Spec-side sum of the six face-adjacent neighbor values. -/
def faceNeighborSum (g : Grid) (i j k : Nat) : Nat :=
  (NEIGHBORS_6.map (nbrVal g i j k)).sum

/-- Spec-side surface-voxel predicate of claim C5. -/
def surfaceSpec (g : Grid) (i j k : Nat) : Prop :=
  g.val i j k = 1 ∧ faceNeighborSum g i j k < 6

instance (g : Grid) (i j k : Nat) : Decidable (surfaceSpec g i j k) := by
  unfold surfaceSpec; infer_instance

lemma neighborSum_eq_faceNeighborSum (g : Grid) (i j k : Nat)
    (hi : i < g.sx) (hj : j < g.sy) (hk : k < g.sz) :
    neighborSum g i j k = faceNeighborSum g i j k := by
  have t1 : paddedVal g (i + 2) (j + 1) (k + 1) = nbrVal g i j k (1, 0, 0) := by
    simp only [paddedVal, nbrVal, inB]
    split <;> split <;> first
      | rfl
      | (exfalso; omega)
      | (congr 1 <;> omega)
  have t2 : paddedVal g i (j + 1) (k + 1) = nbrVal g i j k (-1, 0, 0) := by
    simp only [paddedVal, nbrVal, inB]
    split <;> split <;> first
      | rfl
      | (exfalso; omega)
      | (congr 1 <;> omega)
  have t3 : paddedVal g (i + 1) (j + 2) (k + 1) = nbrVal g i j k (0, 1, 0) := by
    simp only [paddedVal, nbrVal, inB]
    split <;> split <;> first
      | rfl
      | (exfalso; omega)
      | (congr 1 <;> omega)
  have t4 : paddedVal g (i + 1) j (k + 1) = nbrVal g i j k (0, -1, 0) := by
    simp only [paddedVal, nbrVal, inB]
    split <;> split <;> first
      | rfl
      | (exfalso; omega)
      | (congr 1 <;> omega)
  have t5 : paddedVal g (i + 1) (j + 1) (k + 2) = nbrVal g i j k (0, 0, 1) := by
    simp only [paddedVal, nbrVal, inB]
    split <;> split <;> first
      | rfl
      | (exfalso; omega)
      | (congr 1 <;> omega)
  have t6 : paddedVal g (i + 1) (j + 1) k = nbrVal g i j k (0, 0, -1) := by
    simp only [paddedVal, nbrVal, inB]
    split <;> split <;> first
      | rfl
      | (exfalso; omega)
      | (congr 1 <;> omega)
  simp only [neighborSum, faceNeighborSum, NEIGHBORS_6, List.map_cons, List.map_nil,
    List.sum_cons, List.sum_nil, t1, t2, t3, t4, t5, t6]
  ring

/-- Wrapped index of np.roll: position t taken modulo the padded extent n. -/
def wrapIdx (n : Nat) (t : Int) : Nat := (t % (n : Int)).toNat

/-- The np.roll-based 6-neighbor sum of the naive extraction path, evaluated
at a position (a, b, c) of the padded array. -/
def rollNeighborSum (g : Grid) (a b c : Nat) : Nat :=
  paddedVal g (wrapIdx (g.sx + 2) ((a : Int) - 1)) b c +
  paddedVal g (wrapIdx (g.sx + 2) ((a : Int) + 1)) b c +
  paddedVal g a (wrapIdx (g.sy + 2) ((b : Int) - 1)) c +
  paddedVal g a (wrapIdx (g.sy + 2) ((b : Int) + 1)) c +
  paddedVal g a b (wrapIdx (g.sz + 2) ((c : Int) - 1)) +
  paddedVal g a b (wrapIdx (g.sz + 2) ((c : Int) + 1))

/-- The surface-voxel mask of the naive extraction path: the rolled neighbor
sum restricted to the interior of the padded array. -/
def perimeter_voxels (g : Grid) (i j k : Nat) : Prop :=
  g.val i j k = 1 ∧ rollNeighborSum g (i + 1) (j + 1) (k + 1) < 6

instance (g : Grid) (i j k : Nat) : Decidable (perimeter_voxels g i j k) := by
  unfold perimeter_voxels; infer_instance

lemma wrapIdx_eq_of_lt (n : Nat) (t : Int) (h0 : 0 ≤ t) (h1 : t < (n : Int)) :
    wrapIdx n t = t.toNat := by
  unfold wrapIdx
  rw [Int.emod_eq_of_lt h0 h1]

lemma rollNeighborSum_interior (g : Grid) (i j k : Nat)
    (hi : i < g.sx) (hj : j < g.sy) (hk : k < g.sz) :
    rollNeighborSum g (i + 1) (j + 1) (k + 1) = neighborSum g i j k := by
  have wx1 : wrapIdx (g.sx + 2) (((i + 1 : Nat) : Int) - 1) = i := by
    rw [wrapIdx_eq_of_lt _ _ (by omega) (by push_cast; omega)]; omega
  have wx2 : wrapIdx (g.sx + 2) (((i + 1 : Nat) : Int) + 1) = i + 2 := by
    rw [wrapIdx_eq_of_lt _ _ (by omega) (by push_cast; omega)]; omega
  have wy1 : wrapIdx (g.sy + 2) (((j + 1 : Nat) : Int) - 1) = j := by
    rw [wrapIdx_eq_of_lt _ _ (by omega) (by push_cast; omega)]; omega
  have wy2 : wrapIdx (g.sy + 2) (((j + 1 : Nat) : Int) + 1) = j + 2 := by
    rw [wrapIdx_eq_of_lt _ _ (by omega) (by push_cast; omega)]; omega
  have wz1 : wrapIdx (g.sz + 2) (((k + 1 : Nat) : Int) - 1) = k := by
    rw [wrapIdx_eq_of_lt _ _ (by omega) (by push_cast; omega)]; omega
  have wz2 : wrapIdx (g.sz + 2) (((k + 1 : Nat) : Int) + 1) = k + 2 := by
    rw [wrapIdx_eq_of_lt _ _ (by omega) (by push_cast; omega)]; omega
  unfold rollNeighborSum neighborSum
  rw [wx1, wx2, wy1, wy2, wz1, wz2]

/-- Claim C5: for every grid and every in-bounds voxel, the surface mask of
the extraction (occupied, and slice-computed 6-neighbor sum over the
zero-padded array strictly below 6) holds exactly when the voxel value is 1
and the sum of its six face-adjacent neighbor values, out-of-bounds counted
as 0, is strictly less than 6. -/
theorem C5_surface_predicate (g : Grid) (i j k : Nat)
    (hi : i < g.sx) (hj : j < g.sy) (hk : k < g.sz) :
    surface_voxels g i j k ↔ surfaceSpec g i j k := by
  unfold surface_voxels surfaceSpec
  rw [neighborSum_eq_faceNeighborSum g i j k hi hj hk]

/-- Example grid used by several witnesses: a 3x3x3 grid of all 1s. -/
def gAll3 : Grid := ⟨3, 3, 3, fun _ _ _ => 1⟩

/-- Witness for claim C5 at a concrete input: the corner voxel of the full
3x3x3 block is in bounds, and the two surface predicates agree there. -/
theorem C5_surface_predicate_witness :
    (0 < gAll3.sx ∧ 0 < gAll3.sy ∧ 0 < gAll3.sz) ∧
      (surface_voxels gAll3 0 0 0 ↔ surfaceSpec gAll3 0 0 0) :=
  ⟨by decide, C5_surface_predicate gAll3 0 0 0 (by decide) (by decide) (by decide)⟩

/-- Claim C10: for every grid and every in-bounds voxel, the slice-based
surface mask of the deduplicated path and the np.roll-based mask of the naive
path agree (the roll wraparound never reaches back into the interior of the
padded array). -/
theorem C10_masks_agree (g : Grid) (i j k : Nat)
    (hi : i < g.sx) (hj : j < g.sy) (hk : k < g.sz) :
    perimeter_voxels g i j k ↔ surface_voxels g i j k := by
  unfold perimeter_voxels surface_voxels
  rw [rollNeighborSum_interior g i j k hi hj hk]

/-- Witness for claim C10 at a concrete input: the center voxel of the full
3x3x3 block is in bounds and the two masks agree there. -/
theorem C10_masks_agree_witness :
    (1 < gAll3.sx ∧ 1 < gAll3.sy ∧ 1 < gAll3.sz) ∧
      (perimeter_voxels gAll3 1 1 1 ↔ surface_voxels gAll3 1 1 1) :=
  ⟨by decide, C10_masks_agree gAll3 1 1 1 (by decide) (by decide) (by decide)⟩

/-- Claim C8: the three neighbor-offset tables have exactly the specified
membership: NEIGHBORS_6 holds the offsets with plus or minus 1 on exactly one
axis, NEIGHBORS_18 the 18 nonzero offsets with coordinates in -1..1 and
Manhattan norm at most 2, NEIGHBORS_26 all 26 nonzero offsets with
coordinates in -1..1. -/
theorem C8_neighbor_tables :
    (∀ d : Offset, d ∈ NEIGHBORS_6 ↔ isFaceOffset d) ∧
    (∀ d : Offset, d ∈ NEIGHBORS_18 ↔ is18Offset d) ∧
    (∀ d : Offset, d ∈ NEIGHBORS_26 ↔ is26Offset d) ∧
    NEIGHBORS_6.length = 6 ∧ NEIGHBORS_18.length = 18 ∧ NEIGHBORS_26.length = 26 :=
  ⟨n6_iff, n18_iff, n26_iff, by decide, by decide, by decide⟩

/-- State threaded through the flood fills: the voxel data plus the visited
flags and the boundary flag of the bubble search.  The source only ever
assigns into the visited array and the local boundary flag; the data array is
read-only, which the record updates below make explicit. -/
structure SState (α : Type) where
  grid : Grid
  visited : Finset α
  flag : Bool

section Search

variable {α : Type} [DecidableEq α]

/-- One pass of the inner neighbor loop of a flood fill: each candidate is
either an in-bounds neighbor (checked against the value predicate and the
visited flags, then marked and enqueued) or an out-of-bounds position (which
raises the boundary flag, as in find_bubbles).  Returns the new state and the
queue extension. -/
def processCands (good : Grid → α → Bool) :
    SState α → List (Option α) → List α → SState α × List α
  | st, [], acc => (st, acc)
  | st, none :: rest, acc => processCands good { st with flag := true } rest acc
  | st, some b :: rest, acc =>
    if good st.grid b = true ∧ b ∉ st.visited then
      processCands good { st with visited := insert b st.visited } rest (acc ++ [b])
    else
      processCands good st rest acc

lemma pc_grid (good : Grid → α → Bool) :
    ∀ (cands : List (Option α)) (st : SState α) (acc : List α),
      (processCands good st cands acc).1.grid = st.grid := by
  intro cands
  induction cands with
  | nil => intro st acc; rfl
  | cons c rest ih =>
    intro st acc
    cases c with
    | none => exact ih _ _
    | some b =>
      by_cases h : good st.grid b = true ∧ b ∉ st.visited
      · simp only [processCands, if_pos h]; exact ih _ _
      · simp only [processCands, if_neg h]; exact ih _ _

lemma pc_mem_vis (good : Grid → α → Bool) :
    ∀ (cands : List (Option α)) (st : SState α) (acc : List α) (x : α),
      x ∈ (processCands good st cands acc).1.visited ↔
        x ∈ st.visited ∨ (some x ∈ cands ∧ good st.grid x = true) := by
  intro cands
  induction cands with
  | nil => intro st acc x; simp [processCands]
  | cons c rest ih =>
    intro st acc x
    cases c with
    | none =>
      simp only [processCands]
      rw [ih]
      simp
    | some b =>
      by_cases h : good st.grid b = true ∧ b ∉ st.visited
      · simp only [processCands, if_pos h]
        rw [ih]
        simp only [Finset.mem_insert, List.mem_cons, Option.some.injEq]
        constructor
        · rintro ((rfl | hx) | ⟨hx, hg⟩)
          · exact Or.inr ⟨Or.inl rfl, h.1⟩
          · exact Or.inl hx
          · exact Or.inr ⟨Or.inr hx, hg⟩
        · rintro (hx | ⟨(rfl | hx), hg⟩)
          · exact Or.inl (Or.inr hx)
          · exact Or.inl (Or.inl rfl)
          · exact Or.inr ⟨hx, hg⟩
      · simp only [processCands, if_neg h]
        rw [ih]
        simp only [List.mem_cons, Option.some.injEq]
        constructor
        · rintro (hx | ⟨hx, hg⟩)
          · exact Or.inl hx
          · exact Or.inr ⟨Or.inr hx, hg⟩
        · rintro (hx | ⟨(rfl | hx), hg⟩)
          · exact Or.inl hx
          · rcases not_and_or.mp h with h1 | h1
            · exact absurd hg h1
            · exact Or.inl (not_not.mp h1)
          · exact Or.inr ⟨hx, hg⟩

lemma pc_out_mem (good : Grid → α → Bool) :
    ∀ (cands : List (Option α)) (st : SState α) (acc : List α) (x : α),
      x ∈ (processCands good st cands acc).2 ↔
        x ∈ acc ∨ (some x ∈ cands ∧ good st.grid x = true ∧ x ∉ st.visited) := by
  intro cands
  induction cands with
  | nil => intro st acc x; simp [processCands]
  | cons c rest ih =>
    intro st acc x
    cases c with
    | none =>
      simp only [processCands]
      rw [ih]
      simp
    | some b =>
      by_cases h : good st.grid b = true ∧ b ∉ st.visited
      · simp only [processCands, if_pos h]
        rw [ih]
        simp only [List.mem_append, List.mem_singleton, List.not_mem_nil,
          Finset.mem_insert, List.mem_cons, Option.some.injEq]
        obtain ⟨hg, hv⟩ := h
        by_cases hxb : x = b
        · subst hxb; tauto
        · tauto
      · simp only [processCands, if_neg h]
        rw [ih]
        simp only [List.mem_cons, Option.some.injEq]
        constructor
        · rintro (hx | ⟨hx, hg, hv⟩)
          · exact Or.inl hx
          · exact Or.inr ⟨Or.inr hx, hg, hv⟩
        · rintro (hx | ⟨(rfl | hx), hg, hv⟩)
          · exact Or.inl hx
          · exact absurd ⟨hg, hv⟩ h
          · exact Or.inr ⟨hx, hg, hv⟩

lemma pc_card (good : Grid → α → Bool) :
    ∀ (cands : List (Option α)) (st : SState α) (acc : List α),
      (processCands good st cands acc).1.visited.card + acc.length =
        st.visited.card + (processCands good st cands acc).2.length := by
  intro cands
  induction cands with
  | nil => intro st acc; rfl
  | cons c rest ih =>
    intro st acc
    cases c with
    | none => exact ih _ _
    | some b =>
      by_cases h : good st.grid b = true ∧ b ∉ st.visited
      · simp only [processCands, if_pos h]
        have := ih { st with visited := insert b st.visited } (acc ++ [b])
        simp only [List.length_append, List.length_singleton] at this
        rw [Finset.card_insert_of_not_mem h.2] at this
        omega
      · simp only [processCands, if_neg h]
        exact ih _ _

lemma pc_flag (good : Grid → α → Bool) :
    ∀ (cands : List (Option α)) (st : SState α) (acc : List α),
      ((processCands good st cands acc).1.flag = true ↔
        st.flag = true ∨ none ∈ cands) := by
  intro cands
  induction cands with
  | nil => intro st acc; simp [processCands]
  | cons c rest ih =>
    intro st acc
    cases c with
    | none =>
      simp only [processCands]
      rw [ih]
      simp
    | some b =>
      by_cases h : good st.grid b = true ∧ b ∉ st.visited
      · simp only [processCands, if_pos h]
        rw [ih]
        simp
      · simp only [processCands, if_neg h]
        rw [ih]
        simp

variable (expand : Grid → α → List (Option α)) (good : Grid → α → Bool)

/-- The step relation of a flood fill: the target is an in-bounds neighbor
candidate of the source that satisfies the value predicate. -/
def stepRel (g : Grid) (a b : α) : Prop :=
  some b ∈ expand g a ∧ good g b = true

/-- Reachability through the flood fill: the reflexive-transitive closure of
the step relation.  Connectivity of the spec is phrased with this closure. -/
def reach (g : Grid) : α → α → Prop :=
  Relation.ReflTransGen (stepRel expand good g)

/-- The breadth-first flood fill of the source, with an explicit fuel bound in
place of the while loop: pop the head of the queue, walk its neighbor
candidates (marking, enqueueing, and raising the boundary flag), repeat. -/
def bfsAux : Nat → SState α → List α → SState α
  | 0, st, _ => st
  | _ + 1, st, [] => st
  | fuel + 1, st, cur :: queue =>
    bfsAux fuel (processCands good st (expand st.grid cur) []).1
      (queue ++ (processCands good st (expand st.grid cur) []).2)

theorem bfsAux_spec (g : Grid) (S : Finset α)
    (hNS : ∀ a b, some b ∈ expand g a → good g b = true → b ∈ S) :
    ∀ (fuel : Nat) (st : SState α) (queue : List α),
      st.grid = g →
      st.visited ⊆ S →
      (∀ q ∈ queue, q ∈ st.visited) →
      (∀ a ∈ st.visited,
        (∀ b, some b ∈ expand g a → good g b = true → b ∈ st.visited) ∨ a ∈ queue) →
      queue.length + (S.card - st.visited.card) ≤ fuel →
      (bfsAux expand good fuel st queue).grid = g ∧
      st.visited ⊆ (bfsAux expand good fuel st queue).visited ∧
      (∀ b ∈ (bfsAux expand good fuel st queue).visited,
        b ∈ st.visited ∨ (good g b = true ∧ ∃ a ∈ queue, reach expand good g a b)) ∧
      (∀ a ∈ (bfsAux expand good fuel st queue).visited, ∀ b,
        some b ∈ expand g a → good g b = true →
          b ∈ (bfsAux expand good fuel st queue).visited) ∧
      ((bfsAux expand good fuel st queue).flag = true ↔
        st.flag = true ∨ (∃ a ∈ queue, none ∈ expand g a) ∨
          (∃ a ∈ (bfsAux expand good fuel st queue).visited,
            a ∉ st.visited ∧ none ∈ expand g a)) := by
  intro fuel
  induction fuel with
  | zero =>
    intro st queue hg hVS hq hinv hfuel
    have hqnil : queue = [] := by
      cases queue with
      | nil => rfl
      | cons c cs => simp at hfuel
    subst hqnil
    refine ⟨hg, Finset.Subset.refl _, fun b hb => Or.inl hb, ?_, ?_⟩
    · intro a ha b hmem hgb
      rcases hinv a ha with hcl | hqa
      · exact hcl b hmem hgb
      · simp at hqa
    · simp only [bfsAux]
      constructor
      · intro hf
        exact Or.inl hf
      · rintro (hf | ⟨a, ha, _⟩ | ⟨a, ha, hna, _⟩)
        · exact hf
        · simp at ha
        · exact absurd ha hna
  | succ fuel ih =>
    intro st queue hg hVS hq hinv hfuel
    cases queue with
    | nil =>
      refine ⟨hg, Finset.Subset.refl _, fun b hb => Or.inl hb, ?_, ?_⟩
      · intro a ha b hmem hgb
        rcases hinv a ha with hcl | hqa
        · exact hcl b hmem hgb
        · simp at hqa
      · simp only [bfsAux]
        constructor
        · intro hf
          exact Or.inl hf
        · rintro (hf | ⟨a, ha, _⟩ | ⟨a, ha, hna, _⟩)
          · exact hf
          · simp at ha
          · exact absurd ha hna
    | cons cur rest =>
      subst hg
      have hcur : cur ∈ st.visited := hq cur (List.mem_cons_self _ _)
      have houtm : ∀ x, x ∈ (processCands good st (expand st.grid cur) []).2 ↔
          (some x ∈ expand st.grid cur ∧ good st.grid x = true ∧ x ∉ st.visited) := by
        intro x
        rw [pc_out_mem]
        simp
      have hmemv : ∀ x, x ∈ (processCands good st (expand st.grid cur) []).1.visited ↔
          x ∈ st.visited ∨ (some x ∈ expand st.grid cur ∧ good st.grid x = true) :=
        fun x => pc_mem_vis good (expand st.grid cur) st [] x
      have hcard : (processCands good st (expand st.grid cur) []).1.visited.card =
          st.visited.card + (processCands good st (expand st.grid cur) []).2.length := by
        have := pc_card good (expand st.grid cur) st []
        simpa using this
      have hflag1 : ((processCands good st (expand st.grid cur) []).1.flag = true ↔
          st.flag = true ∨ none ∈ expand st.grid cur) :=
        pc_flag good (expand st.grid cur) st []
      have hgrid1 : (processCands good st (expand st.grid cur) []).1.grid = st.grid :=
        pc_grid good (expand st.grid cur) st []
      have hVS' : (processCands good st (expand st.grid cur) []).1.visited ⊆ S := by
        intro x hx
        rcases (hmemv x).mp hx with hx | ⟨hm, hgx⟩
        · exact hVS hx
        · exact hNS cur x hm hgx
      have hq' : ∀ q ∈ rest ++ (processCands good st (expand st.grid cur) []).2,
          q ∈ (processCands good st (expand st.grid cur) []).1.visited := by
        intro q hqm
        rcases List.mem_append.mp hqm with hqm | hqm
        · exact (hmemv q).mpr (Or.inl (hq q (List.mem_cons_of_mem _ hqm)))
        · rcases (houtm q).mp hqm with ⟨hm, hgx, _⟩
          exact (hmemv q).mpr (Or.inr ⟨hm, hgx⟩)
      have hinv' : ∀ a ∈ (processCands good st (expand st.grid cur) []).1.visited,
          (∀ b, some b ∈ expand st.grid a → good st.grid b = true →
            b ∈ (processCands good st (expand st.grid cur) []).1.visited) ∨
          a ∈ rest ++ (processCands good st (expand st.grid cur) []).2 := by
        intro a ha
        by_cases hast : a ∈ st.visited
        · rcases hinv a hast with hcl | hqa
          · exact Or.inl fun b hmem hgb => (hmemv b).mpr (Or.inl (hcl b hmem hgb))
          · rcases List.mem_cons.mp hqa with rfl | hqa
            · exact Or.inl fun b hmem hgb => (hmemv b).mpr (Or.inr ⟨hmem, hgb⟩)
            · exact Or.inr (List.mem_append.mpr (Or.inl hqa))
        · rcases (hmemv a).mp ha with ha' | ⟨hm, hgx⟩
          · exact absurd ha' hast
          · exact Or.inr (List.mem_append.mpr (Or.inr ((houtm a).mpr ⟨hm, hgx, hast⟩)))
      have hfuel' : (rest ++ (processCands good st (expand st.grid cur) []).2).length +
          (S.card - (processCands good st (expand st.grid cur) []).1.visited.card) ≤ fuel := by
        have h1 : (processCands good st (expand st.grid cur) []).1.visited.card ≤ S.card :=
          Finset.card_le_card hVS'
        have h2 : st.visited.card ≤ S.card := Finset.card_le_card hVS
        simp only [List.length_append]
        simp only [List.length_cons] at hfuel
        omega
      obtain ⟨ihg, ihmono, ihsound, ihclosed, ihflag⟩ :=
        ih (processCands good st (expand st.grid cur) []).1
          (rest ++ (processCands good st (expand st.grid cur) []).2) hgrid1 hVS' hq' hinv' hfuel'
      have hmono : st.visited ⊆ (bfsAux expand good (fuel + 1) st (cur :: rest)).visited := by
        simp only [bfsAux]
        exact fun x hx => ihmono ((hmemv x).mpr (Or.inl hx))
      refine ⟨?_, hmono, ?_, ?_, ?_⟩
      · simp only [bfsAux]; exact ihg
      · simp only [bfsAux]
        intro b hb
        rcases ihsound b hb with hb' | ⟨hgb, a, ha, hr⟩
        · rcases (hmemv b).mp hb' with hb'' | ⟨hm, hgx⟩
          · exact Or.inl hb''
          · exact Or.inr ⟨hgx, cur, List.mem_cons_self _ _,
              Relation.ReflTransGen.single ⟨hm, hgx⟩⟩
        · rcases List.mem_append.mp ha with ha' | ha'
          · exact Or.inr ⟨hgb, a, List.mem_cons_of_mem _ ha', hr⟩
          · rcases (houtm a).mp ha' with ⟨hm, hga, _⟩
            exact Or.inr ⟨hgb, cur, List.mem_cons_self _ _,
              Relation.ReflTransGen.head ⟨hm, hga⟩ hr⟩
      · simp only [bfsAux]
        exact ihclosed
      · simp only [bfsAux]
        rw [ihflag, hflag1]
        constructor
        · rintro ((hf | hn) | ⟨a, ha, hn⟩ | ⟨a, haR, hav, hn⟩)
          · exact Or.inl hf
          · exact Or.inr (Or.inl ⟨cur, List.mem_cons_self _ _, hn⟩)
          · rcases List.mem_append.mp ha with ha' | ha'
            · exact Or.inr (Or.inl ⟨a, List.mem_cons_of_mem _ ha', hn⟩)
            · rcases (houtm a).mp ha' with ⟨hm, hga, hnv⟩
              exact Or.inr (Or.inr ⟨a, ihmono ((hmemv a).mpr (Or.inr ⟨hm, hga⟩)), hnv, hn⟩)
          · refine Or.inr (Or.inr ⟨a, haR, fun hc => hav ((hmemv a).mpr (Or.inl hc)), hn⟩)
        · rintro (hf | ⟨a, ha, hn⟩ | ⟨a, haR, hav, hn⟩)
          · exact Or.inl (Or.inl hf)
          · rcases List.mem_cons.mp ha with rfl | ha'
            · exact Or.inl (Or.inr hn)
            · exact Or.inr (Or.inl ⟨a, List.mem_append.mpr (Or.inl ha'), hn⟩)
          · by_cases hap : a ∈ (processCands good st (expand st.grid cur) []).1.visited
            · rcases (hmemv a).mp hap with ha' | ⟨hm, hga⟩
              · exact absurd ha' hav
              · exact Or.inr (Or.inl ⟨a,
                  List.mem_append.mpr (Or.inr ((houtm a).mpr ⟨hm, hga, hav⟩)), hn⟩)
            · exact Or.inr (Or.inr ⟨a, haR, hap, hn⟩)

instance stepRelDec (g : Grid) (a b : α) : Decidable (stepRel expand good g a b) := by
  unfold stepRel; infer_instance

lemma reach_closed_mem (g : Grid) (W : Finset α)
    (hW : ∀ a ∈ W, ∀ b, stepRel expand good g a b → b ∈ W)
    {a b : α} (ha : a ∈ W) (h : reach expand good g a b) : b ∈ W := by
  induction h with
  | refl => exact ha
  | tail _ hstep ih => exact hW _ ih _ hstep

lemma reach_good (g : Grid) {a b : α} (hga : good g a = true)
    (h : reach expand good g a b) : good g b = true := by
  induction h with
  | refl => exact hga
  | tail _ hstep _ => exact hstep.2

variable (T : Finset α)

/-- One expansion step of the reachable set within the carrier T. -/
def expandSet (g : Grid) (R : Finset α) : Finset α :=
  R ∪ T.filter (fun b => ∃ a ∈ R, stepRel expand good g a b)

/-- Iterated neighbor expansion from a seed: after enough steps this is the
set of cells reachable from the seed, which makes connectivity decidable. -/
def reachSet (g : Grid) (v : α) (n : Nat) : Finset α :=
  (expandSet expand good T g)^[n] {v}

lemma reachSet_zero (g : Grid) (v : α) : reachSet expand good T g v 0 = {v} := rfl

lemma reachSet_succ (g : Grid) (v : α) (n : Nat) :
    reachSet expand good T g v (n + 1) =
      expandSet expand good T g (reachSet expand good T g v n) :=
  Function.iterate_succ_apply' _ _ _

lemma subset_expandSet (g : Grid) (R : Finset α) : R ⊆ expandSet expand good T g R :=
  Finset.subset_union_left

lemma reachSet_mono (g : Grid) (v : α) {m n : Nat} (h : m ≤ n) :
    reachSet expand good T g v m ⊆ reachSet expand good T g v n := by
  induction n with
  | zero => simp_all
  | succ n ih =>
    rcases Nat.lt_or_ge m (n + 1) with hm | hm
    · have := ih (by omega)
      rw [reachSet_succ]
      exact this.trans (subset_expandSet _ _ _ _ _)
    · have : m = n + 1 := by omega
      subst this
      exact Finset.Subset.refl _

lemma reachSet_sound (g : Grid) (v : α) :
    ∀ n, ∀ b ∈ reachSet expand good T g v n, reach expand good g v b := by
  intro n
  induction n with
  | zero =>
    intro b hb
    rw [reachSet_zero, Finset.mem_singleton] at hb
    subst hb
    exact Relation.ReflTransGen.refl
  | succ n ih =>
    intro b hb
    rw [reachSet_succ] at hb
    rcases Finset.mem_union.mp hb with hb | hb
    · exact ih b hb
    · obtain ⟨_, a, ha, hstep⟩ := Finset.mem_filter.mp hb
      exact Relation.ReflTransGen.tail (ih a ha) hstep

lemma reachSet_subset_T (g : Grid) (v : α) (hvT : v ∈ T) :
    ∀ n, reachSet expand good T g v n ⊆ T := by
  intro n
  induction n with
  | zero => rw [reachSet_zero]; simpa using hvT
  | succ n ih =>
    rw [reachSet_succ]
    intro x hx
    rcases Finset.mem_union.mp hx with hx | hx
    · exact ih hx
    · exact (Finset.mem_filter.mp hx).1

lemma reachSet_complete (g : Grid)
    (hstepT : ∀ a b, stepRel expand good g a b → b ∈ T) (v : α) {b : α}
    (h : reach expand good g v b) : ∃ n, b ∈ reachSet expand good T g v n := by
  induction h with
  | refl => exact ⟨0, by simp [reachSet_zero]⟩
  | tail _ hstep ih =>
    obtain ⟨n, hn⟩ := ih
    refine ⟨n + 1, ?_⟩
    rw [reachSet_succ]
    refine Finset.mem_union.mpr (Or.inr (Finset.mem_filter.mpr ⟨hstepT _ _ hstep, ?_⟩))
    exact ⟨_, hn, hstep⟩

lemma reachSet_stab (g : Grid) (v : α) {n : Nat}
    (h : reachSet expand good T g v (n + 1) = reachSet expand good T g v n) :
    ∀ m, n ≤ m → reachSet expand good T g v m = reachSet expand good T g v n := by
  intro m hm
  induction m with
  | zero =>
    have : n = 0 := by omega
    subst this; rfl
  | succ m ih =>
    rcases Nat.lt_or_ge n (m + 1) with h1 | h1
    · have hmn : n ≤ m := by omega
      have := ih hmn
      rw [reachSet_succ, this, ← reachSet_succ, h]
    · have : n = m + 1 := by omega
      subst this; rfl

lemma reachSet_growth (g : Grid) (v : α) :
    ∀ m, (∀ k < m, reachSet expand good T g v (k + 1) ≠ reachSet expand good T g v k) →
      m + 1 ≤ (reachSet expand good T g v m).card := by
  intro m
  induction m with
  | zero => intro _; simp [reachSet_zero]
  | succ m ih =>
    intro h
    have h1 : m + 1 ≤ (reachSet expand good T g v m).card :=
      ih fun k hk => h k (by omega)
    have h2 : reachSet expand good T g v m ⊂ reachSet expand good T g v (m + 1) := by
      refine Finset.ssubset_iff_subset_ne.mpr ⟨reachSet_mono expand good T g v (by omega), ?_⟩
      exact fun hc => h m (by omega) hc.symm
    have := Finset.card_lt_card h2
    omega

lemma reach_iff_reachSet (g : Grid)
    (hstepT : ∀ a b, stepRel expand good g a b → b ∈ T) (v : α) (hvT : v ∈ T) (b : α) :
    reach expand good g v b ↔ b ∈ reachSet expand good T g v T.card := by
  constructor
  · intro h
    obtain ⟨n, hn⟩ := reachSet_complete expand good T g hstepT v h
    have hfix : ∃ n₀ ≤ T.card, reachSet expand good T g v (n₀ + 1) = reachSet expand good T g v n₀ := by
      by_contra hc
      push_neg at hc
      have hgrow : ∀ k < T.card + 1,
          reachSet expand good T g v (k + 1) ≠ reachSet expand good T g v k :=
        fun k hk => hc k (by omega)
      have := reachSet_growth expand good T g v (T.card + 1) hgrow
      have hsub := Finset.card_le_card (reachSet_subset_T expand good T g v hvT (T.card + 1))
      omega
    obtain ⟨n₀, hn₀, hfix⟩ := hfix
    rcases Nat.le_total n T.card with hle | hle
    · exact reachSet_mono expand good T g v hle hn
    · have e1 := reachSet_stab expand good T g v hfix n (by omega)
      have e2 := reachSet_stab expand good T g v hfix T.card hn₀
      rw [e1] at hn
      rw [e2]
      exact hn
  · exact reachSet_sound expand good T g v T.card b

/-- The connected component of a seed cell, as the source computes it: the
cells of the carrier reachable from the seed through the step relation. -/
def componentOf (g : Grid) (v : α) : Finset α :=
  T.filter (fun w => w ∈ reachSet expand good T g v T.card)

lemma mem_componentOf (g : Grid)
    (hstepT : ∀ a b, stepRel expand good g a b → b ∈ T) (v : α) (hvT : v ∈ T) (w : α) :
    w ∈ componentOf expand good T g v ↔ w ∈ T ∧ reach expand good g v w := by
  unfold componentOf
  rw [Finset.mem_filter, reach_iff_reachSet expand good T g hstepT v hvT]

lemma reach_mem_T (g : Grid)
    (hstepT : ∀ a b, stepRel expand good g a b → b ∈ T) {a b : α} (haT : a ∈ T)
    (h : reach expand good g a b) : b ∈ T := by
  induction h with
  | refl => exact haT
  | tail _ hstep _ => exact hstepT _ _ hstep

lemma reach_symm (g : Grid)
    (hstepT : ∀ a b, stepRel expand good g a b → b ∈ T)
    (hsymT : ∀ a ∈ T, ∀ b, some b ∈ expand g a → some a ∈ expand g b)
    (hTgood : ∀ a ∈ T, good g a = true)
    {a b : α} (haT : a ∈ T) (h : reach expand good g a b) : reach expand good g b a := by
  induction h with
  | refl => exact Relation.ReflTransGen.refl
  | @tail b' c hab hstep ih =>
    have hb'T : b' ∈ T := reach_mem_T expand good T g hstepT haT hab
    exact Relation.ReflTransGen.head ⟨hsymT b' hb'T c hstep.1, hTgood b' hb'T⟩ ih

lemma componentOf_eq_of_reach (g : Grid)
    (hstepT : ∀ a b, stepRel expand good g a b → b ∈ T)
    (hsymT : ∀ a ∈ T, ∀ b, some b ∈ expand g a → some a ∈ expand g b)
    (hTgood : ∀ a ∈ T, good g a = true)
    {v w : α} (hvT : v ∈ T) (h : reach expand good g v w) :
    componentOf expand good T g v = componentOf expand good T g w := by
  have hwT : w ∈ T := reach_mem_T expand good T g hstepT hvT h
  have hwv : reach expand good g w v := reach_symm expand good T g hstepT hsymT hTgood hvT h
  ext x
  rw [mem_componentOf expand good T g hstepT v hvT, mem_componentOf expand good T g hstepT w hwT]
  constructor
  · rintro ⟨hxT, hx⟩
    exact ⟨hxT, Relation.ReflTransGen.trans hwv hx⟩
  · rintro ⟨hxT, hx⟩
    exact ⟨hxT, Relation.ReflTransGen.trans h hx⟩

lemma bfs_seed (g : Grid)
    (hstepT : ∀ a b, stepRel expand good g a b → b ∈ T)
    (hsymT : ∀ a ∈ T, ∀ b, some b ∈ expand g a → some a ∈ expand g b)
    (hTgood : ∀ a ∈ T, good g a = true)
    (fuel : Nat) (hfuel : T.card < fuel)
    (st : SState α) (hg : st.grid = g) (hVT : st.visited ⊆ T)
    (hclosed : ∀ a ∈ st.visited, ∀ b, stepRel expand good g a b → b ∈ st.visited)
    (c : α) (hcT : c ∈ T) (hcv : c ∉ st.visited) :
    (bfsAux expand good fuel
        { st with visited := insert c st.visited, flag := false } [c]).grid = g ∧
    (∀ b, b ∈ (bfsAux expand good fuel
        { st with visited := insert c st.visited, flag := false } [c]).visited ↔
      b ∈ st.visited ∨ (b ∈ T ∧ reach expand good g c b)) ∧
    (∀ a ∈ (bfsAux expand good fuel
        { st with visited := insert c st.visited, flag := false } [c]).visited, ∀ b,
      stepRel expand good g a b → b ∈ (bfsAux expand good fuel
        { st with visited := insert c st.visited, flag := false } [c]).visited) ∧
    ((bfsAux expand good fuel
        { st with visited := insert c st.visited, flag := false } [c]).flag = true ↔
      ∃ b, reach expand good g c b ∧ none ∈ expand g b) := by
  have hNS : ∀ a b, some b ∈ expand g a → good g b = true → b ∈ T := fun a b hm hgb =>
    hstepT a b ⟨hm, hgb⟩
  obtain ⟨Rg, Rmono, Rsound, Rclosed, Rflag⟩ :=
    bfsAux_spec expand good g T hNS fuel
      { st with visited := insert c st.visited, flag := false } [c] hg
      (by
        intro x hx
        rcases Finset.mem_insert.mp hx with rfl | hx
        · exact hcT
        · exact hVT hx)
      (by
        intro q hqm
        rcases List.mem_cons.mp hqm with rfl | hqm
        · exact Finset.mem_insert_self _ _
        · simp at hqm)
      (by
        intro a ha
        rcases Finset.mem_insert.mp ha with rfl | ha
        · exact Or.inr (List.mem_cons_self _ _)
        · exact Or.inl fun b hmem hgb =>
            Finset.mem_insert_of_mem (hclosed a ha b ⟨hmem, hgb⟩))
      (by
        simp only [List.length_cons, List.length_nil]
        omega)
  have hcR : c ∈ (bfsAux expand good fuel
      { st with visited := insert c st.visited, flag := false } [c]).visited :=
    Rmono (Finset.mem_insert_self _ _)
  have hvis : ∀ b, b ∈ (bfsAux expand good fuel
      { st with visited := insert c st.visited, flag := false } [c]).visited ↔
      b ∈ st.visited ∨ (b ∈ T ∧ reach expand good g c b) := by
    intro b
    constructor
    · intro hb
      rcases Rsound b hb with hb' | ⟨hgb, a, ha, hr⟩
      · rcases Finset.mem_insert.mp hb' with rfl | hb''
        · exact Or.inr ⟨hcT, Relation.ReflTransGen.refl⟩
        · exact Or.inl hb''
      · rcases List.mem_cons.mp ha with rfl | ha'
        · exact Or.inr ⟨reach_mem_T expand good T g hstepT hcT hr, hr⟩
        · simp at ha'
    · rintro (hb | ⟨hbT, hr⟩)
      · exact Rmono (Finset.mem_insert_of_mem hb)
      · exact reach_closed_mem expand good g _
          (fun a ha b hab => Rclosed a ha b hab.1 hab.2) hcR hr
  refine ⟨Rg, hvis, fun a ha b hab => Rclosed a ha b hab.1 hab.2, ?_⟩
  rw [Rflag]
  constructor
  · rintro (hf | ⟨a, ha, hn⟩ | ⟨a, haR, hains, hn⟩)
    · simp at hf
    · rcases List.mem_cons.mp ha with rfl | ha'
      · exact ⟨a, Relation.ReflTransGen.refl, hn⟩
      · simp at ha'
    · rcases (hvis a).mp haR with ha' | ⟨haT, hr⟩
      · exact absurd (Finset.mem_insert_of_mem ha') hains
      · exact ⟨a, hr, hn⟩
  · rintro ⟨b, hr, hn⟩
    by_cases hbc : b = c
    · subst hbc
      exact Or.inr (Or.inl ⟨b, List.mem_cons_self _ _, hn⟩)
    · have hbT : b ∈ T := reach_mem_T expand good T g hstepT hcT hr
      have hbR : b ∈ (bfsAux expand good fuel
          { st with visited := insert c st.visited, flag := false } [c]).visited :=
        (hvis b).mpr (Or.inr ⟨hbT, hr⟩)
      have hbst : b ∉ st.visited := by
        intro hbs
        have hbc' : reach expand good g b c :=
          reach_symm expand good T g hstepT hsymT hTgood hcT hr
        exact hcv (reach_closed_mem expand good g st.visited hclosed hbs hbc')
      refine Or.inr (Or.inr ⟨b, hbR, ?_, hn⟩)
      intro hbi
      rcases Finset.mem_insert.mp hbi with rfl | hbi'
      · exact hbc rfl
      · exact hbst hbi'

/-- The linear scan of the counting operators: walk the scan list in order,
and for each unvisited cell that satisfies the value predicate start a flood
fill, counting the component if its final boundary flag passes the accept
test (find_connected_components accepts always, find_bubbles accepts when the
flag stayed false). -/
def scanLoop (accept : Bool → Bool) (fuel : Nat) :
    List α → SState α → Nat → SState α × Nat
  | [], st, count => (st, count)
  | c :: rest, st, count =>
    if good st.grid c = true ∧ c ∉ st.visited then
      scanLoop accept fuel rest
        (bfsAux expand good fuel { st with visited := insert c st.visited, flag := false } [c])
        (count + (if accept (bfsAux expand good fuel
            { st with visited := insert c st.visited, flag := false } [c]).flag then 1 else 0))
    else
      scanLoop accept fuel rest st count

/-- The set of connected components of the carrier, as computed pieces: the
image of the per-seed component map. -/
def classesOf (g : Grid) : Finset (Finset α) :=
  T.image (componentOf expand good T g)

/-- Whether a whole component passes the accept test applied to its boundary
status (whether any of its cells has an out-of-bounds candidate). -/
def okClass (g : Grid) (accept : Bool → Bool) (C : Finset α) : Prop :=
  accept (decide (∃ a ∈ C, none ∈ expand g a)) = true

instance (g : Grid) (accept : Bool → Bool) (C : Finset α) :
    Decidable (okClass expand g accept C) := by
  unfold okClass; infer_instance

lemma scanLoop_spec (g : Grid) (accept : Bool → Bool)
    (hstepT : ∀ a b, stepRel expand good g a b → b ∈ T)
    (hsymT : ∀ a ∈ T, ∀ b, some b ∈ expand g a → some a ∈ expand g b)
    (hTgood : ∀ a ∈ T, good g a = true)
    (fuel : Nat) (hfuel : T.card < fuel) :
    ∀ (scan : List α) (st : SState α) (count : Nat),
      st.grid = g →
      st.visited ⊆ T →
      (∀ a ∈ st.visited, ∀ b, stepRel expand good g a b → b ∈ st.visited) →
      (∀ c ∈ T, c ∈ scan ∨ c ∈ st.visited) →
      (∀ c ∈ scan, good g c = true → c ∈ T) →
      count = ((st.visited.image (componentOf expand good T g)).filter
        (okClass expand g accept)).card →
      (scanLoop expand good accept fuel scan st count).2 =
        ((classesOf expand good T g).filter (okClass expand g accept)).card ∧
      (scanLoop expand good accept fuel scan st count).1.grid = g := by
  intro scan
  induction scan with
  | nil =>
    intro st count hg hVT hclosed hcover hscanT hcount
    have hTv : T = st.visited := by
      apply Finset.Subset.antisymm
      · intro c hc
        rcases hcover c hc with hc' | hc'
        · simp at hc'
        · exact hc'
      · exact hVT
    refine ⟨?_, hg⟩
    simp only [scanLoop]
    rw [hcount]
    unfold classesOf
    rw [hTv]
  | cons c rest ih =>
    intro st count hg hVT hclosed hcover hscanT hcount
    by_cases hc : good st.grid c = true ∧ c ∉ st.visited
    · obtain ⟨hcg, hcv⟩ := hc
      have hcg' : good g c = true := by rw [hg] at hcg; exact hcg
      have hcT : c ∈ T := hscanT c (List.mem_cons_self _ _) hcg'
      obtain ⟨Rg, Rvis, Rclosed, Rflag⟩ :=
        bfs_seed expand good T g hstepT hsymT hTgood fuel hfuel st hg hVT hclosed c hcT hcv
      have hccomp : c ∈ componentOf expand good T g c :=
        (mem_componentOf expand good T g hstepT c hcT c).mpr ⟨hcT, Relation.ReflTransGen.refl⟩
      have hVeq : (bfsAux expand good fuel
          { st with visited := insert c st.visited, flag := false } [c]).visited =
          st.visited ∪ componentOf expand good T g c := by
        ext b
        rw [Rvis b, Finset.mem_union, mem_componentOf expand good T g hstepT c hcT]
      have himg : ((st.visited ∪ componentOf expand good T g c).image
          (componentOf expand good T g)) =
          (st.visited.image (componentOf expand good T g)) ∪
            {componentOf expand good T g c} := by
        rw [Finset.image_union]
        congr 1
        apply Finset.Subset.antisymm
        · intro D hD
          obtain ⟨w, hw, rfl⟩ := Finset.mem_image.mp hD
          have hmem := (mem_componentOf expand good T g hstepT c hcT w).mp hw
          rw [Finset.mem_singleton]
          exact (componentOf_eq_of_reach expand good T g hstepT hsymT hTgood hcT hmem.2).symm
        · intro D hD
          rw [Finset.mem_singleton] at hD
          subst hD
          exact Finset.mem_image_of_mem _ hccomp
      have hnotmem : componentOf expand good T g c ∉
          st.visited.image (componentOf expand good T g) := by
        intro hD
        obtain ⟨w, hw, hwEq⟩ := Finset.mem_image.mp hD
        have hcc : c ∈ componentOf expand good T g w := by rw [hwEq]; exact hccomp
        have hwT : w ∈ T := hVT hw
        have hrwc := ((mem_componentOf expand good T g hstepT w hwT c).mp hcc).2
        exact hcv (reach_closed_mem expand good g st.visited hclosed hw hrwc)
      have hflageq : (bfsAux expand good fuel
          { st with visited := insert c st.visited, flag := false } [c]).flag =
          decide (∃ a ∈ componentOf expand good T g c, none ∈ expand g a) := by
        apply Bool.eq_iff_iff.mpr
        rw [Rflag, decide_eq_true_iff]
        constructor
        · rintro ⟨b, hr, hn⟩
          exact ⟨b, (mem_componentOf expand good T g hstepT c hcT b).mpr
            ⟨reach_mem_T expand good T g hstepT hcT hr, hr⟩, hn⟩
        · rintro ⟨a, ha, hn⟩
          exact ⟨a, ((mem_componentOf expand good T g hstepT c hcT a).mp ha).2, hn⟩
      have hcount' : count + (if accept (bfsAux expand good fuel
          { st with visited := insert c st.visited, flag := false } [c]).flag then 1 else 0) =
          (((bfsAux expand good fuel
            { st with visited := insert c st.visited, flag := false } [c]).visited.image
              (componentOf expand good T g)).filter (okClass expand g accept)).card := by
        rw [hVeq, himg, Finset.filter_union, Finset.filter_singleton, hcount, hflageq]
        by_cases hok : okClass expand g accept (componentOf expand good T g c)
        · rw [if_pos hok]
          rw [Finset.card_union_of_disjoint (Finset.disjoint_singleton_right.mpr
            (fun hmem => hnotmem (Finset.filter_subset _ _ hmem)))]
          have : accept (decide (∃ a ∈ componentOf expand good T g c, none ∈ expand g a)) =
              true := hok
          rw [this]
          simp
        · rw [if_neg hok]
          have : accept (decide (∃ a ∈ componentOf expand good T g c, none ∈ expand g a)) =
              false := by
            rcases Bool.eq_false_or_eq_true (accept (decide
              (∃ a ∈ componentOf expand good T g c, none ∈ expand g a))) with h' | h'
            · exact absurd h' hok
            · exact h'
          rw [this]
          simp
      simp only [scanLoop, if_pos (And.intro hcg hcv)]
      apply ih _ _ Rg ?_ Rclosed ?_ ?_ hcount'
      · rw [hVeq]
        intro x hx
        rcases Finset.mem_union.mp hx with hx | hx
        · exact hVT hx
        · exact (Finset.mem_filter.mp hx).1
      · intro x hx
        rcases hcover x hx with hx' | hx'
        · rcases List.mem_cons.mp hx' with rfl | hx''
          · refine Or.inr ?_
            rw [hVeq]
            exact Finset.mem_union.mpr (Or.inr hccomp)
          · exact Or.inl hx''
        · refine Or.inr ?_
          rw [hVeq]
          exact Finset.mem_union.mpr (Or.inl hx')
      · intro x hx hgx
        exact hscanT x (List.mem_cons_of_mem _ hx) hgx
    · simp only [scanLoop, if_neg hc]
      apply ih st count hg hVT hclosed ?_ ?_ hcount
      · intro x hx
        rcases hcover x hx with hx' | hx'
        · rcases List.mem_cons.mp hx' with rfl | hx''
          · rcases not_and_or.mp hc with h1 | h1
            · rw [hg] at h1
              exact absurd (hTgood x hx) h1
            · exact Or.inr (not_not.mp h1)
          · exact Or.inl hx''
        · exact Or.inr hx'
      · intro x hx hgx
        exact hscanT x (List.mem_cons_of_mem _ hx) hgx

end Search

/-- Total voxel count of the grid, shape_x * shape_y * shape_z. -/
def totalVoxels (g : Grid) : Nat := g.sx * g.sy * g.sz

/-- Row-major decoding of a flat index, as computed inside the component bfs:
cx = idx / (sy * sz), cy = (idx mod (sy * sz)) / sz, cz = idx mod sz. -/
def decodeIdx (g : Grid) (idx : Nat) : Cell :=
  (idx / (g.sy * g.sz), (idx % (g.sy * g.sz)) / g.sz, idx % g.sz)

/-- Row-major encoding of a cell, as computed inside the component bfs:
neighbor_idx = nx * sy * sz + ny * sz + nz. -/
def encodeIdx (g : Grid) (c : Cell) : Nat :=
  c.1 * (g.sy * g.sz) + c.2.1 * g.sz + c.2.2

/-- The flat (row-major) view of the data, data.flat of the source. -/
def flatVal (g : Grid) (idx : Nat) : Nat :=
  g.val (decodeIdx g idx).1 (decodeIdx g idx).2.1 (decodeIdx g idx).2.2

lemma encode_decode (g : Grid) (idx : Nat) : encodeIdx g (decodeIdx g idx) = idx := by
  have h1 : (g.sy * g.sz) * (idx / (g.sy * g.sz)) + idx % (g.sy * g.sz) = idx :=
    Nat.div_add_mod _ _
  have h2 : g.sz * ((idx % (g.sy * g.sz)) / g.sz) + (idx % (g.sy * g.sz)) % g.sz =
      idx % (g.sy * g.sz) := Nat.div_add_mod _ _
  have h3 : (idx % (g.sy * g.sz)) % g.sz = idx % g.sz :=
    Nat.mod_mod_of_dvd idx ⟨g.sy, by ring⟩
  unfold encodeIdx decodeIdx
  calc idx / (g.sy * g.sz) * (g.sy * g.sz) + idx % (g.sy * g.sz) / g.sz * g.sz + idx % g.sz
      = (g.sy * g.sz) * (idx / (g.sy * g.sz)) +
          (g.sz * (idx % (g.sy * g.sz) / g.sz) + (idx % (g.sy * g.sz)) % g.sz) := by
        rw [h3]; ring
    _ = (g.sy * g.sz) * (idx / (g.sy * g.sz)) + idx % (g.sy * g.sz) := by rw [h2]
    _ = idx := h1

lemma decode_encode (g : Grid) (c : Cell)
    (hx : c.1 < g.sx) (hy : c.2.1 < g.sy) (hz : c.2.2 < g.sz) :
    decodeIdx g (encodeIdx g c) = c := by
  obtain ⟨x, y, z⟩ := c
  simp only at hx hy hz
  have hsz : 0 < g.sz := by omega
  have hyz : 0 < g.sy * g.sz := Nat.mul_pos (by omega) hsz
  have hr : y * g.sz + z < g.sy * g.sz := by
    calc y * g.sz + z < y * g.sz + g.sz := by omega
      _ = (y + 1) * g.sz := by ring
      _ ≤ g.sy * g.sz := Nat.mul_le_mul_right _ (by omega)
  have he : encodeIdx g (x, y, z) = (g.sy * g.sz) * x + (y * g.sz + z) := by
    unfold encodeIdx; ring
  unfold decodeIdx
  rw [he]
  have hdiv : ((g.sy * g.sz) * x + (y * g.sz + z)) / (g.sy * g.sz) = x := by
    rw [Nat.mul_add_div hyz, Nat.div_eq_of_lt hr]
    omega
  have hmod : ((g.sy * g.sz) * x + (y * g.sz + z)) % (g.sy * g.sz) = y * g.sz + z := by
    rw [Nat.mul_add_mod, Nat.mod_eq_of_lt hr]
  have hmody : (y * g.sz + z) / g.sz = y := by
    rw [mul_comm y g.sz, Nat.mul_add_div hsz, Nat.div_eq_of_lt hz]
    omega
  have hmodz : ((g.sy * g.sz) * x + (y * g.sz + z)) % g.sz = z := by
    have : (g.sy * g.sz) * x + (y * g.sz + z) = g.sz * (g.sy * x + y) + z := by ring
    rw [this, Nat.mul_add_mod, Nat.mod_eq_of_lt hz]
  rw [hdiv, hmod, hmody, hmodz]

lemma encode_lt_total (g : Grid) (c : Cell)
    (hx : c.1 < g.sx) (hy : c.2.1 < g.sy) (hz : c.2.2 < g.sz) :
    encodeIdx g c < totalVoxels g := by
  obtain ⟨x, y, z⟩ := c
  simp only at hx hy hz
  have hr : y * g.sz + z < g.sy * g.sz := by
    calc y * g.sz + z < y * g.sz + g.sz := by omega
      _ = (y + 1) * g.sz := by ring
      _ ≤ g.sy * g.sz := Nat.mul_le_mul_right _ (by omega)
  have : encodeIdx g (x, y, z) < (x + 1) * (g.sy * g.sz) := by
    unfold encodeIdx
    simp only
    calc x * (g.sy * g.sz) + y * g.sz + z = x * (g.sy * g.sz) + (y * g.sz + z) := by ring
      _ < x * (g.sy * g.sz) + g.sy * g.sz := by omega
      _ = (x + 1) * (g.sy * g.sz) := by ring
  calc encodeIdx g (x, y, z) < (x + 1) * (g.sy * g.sz) := this
    _ ≤ g.sx * (g.sy * g.sz) := Nat.mul_le_mul_right _ (by omega)
    _ = totalVoxels g := by unfold totalVoxels; ring

lemma decode_inBounds (g : Grid) (idx : Nat) (h : idx < totalVoxels g) :
    (decodeIdx g idx).1 < g.sx ∧ (decodeIdx g idx).2.1 < g.sy ∧ (decodeIdx g idx).2.2 < g.sz := by
  have htot : 0 < totalVoxels g := by omega
  have hsx : 0 < g.sx := by
    by_contra hc
    have : g.sx = 0 := by omega
    simp [totalVoxels, this] at htot
  have hsy : 0 < g.sy := by
    by_contra hc
    have : g.sy = 0 := by omega
    simp [totalVoxels, this] at htot
  have hsz : 0 < g.sz := by
    by_contra hc
    have : g.sz = 0 := by omega
    simp [totalVoxels, this] at htot
  refine ⟨?_, ?_, ?_⟩
  · apply Nat.div_lt_of_lt_mul
    calc idx < totalVoxels g := h
      _ = g.sy * g.sz * g.sx := by unfold totalVoxels; ring
  · apply Nat.div_lt_of_lt_mul
    calc idx % (g.sy * g.sz) < g.sy * g.sz := Nat.mod_lt _ (Nat.mul_pos hsy hsz)
      _ = g.sz * g.sy := by ring
  · exact Nat.mod_lt _ hsz

/-- Neighbor candidates of a flat index during the component bfs: decode the
current index, add each offset, bounds check (out-of-bounds candidates are
skipped), and re-encode the in-bounds neighbors. -/
def idxExpand (nbrs : List Offset) (g : Grid) (idx : Nat) : List (Option Nat) :=
  nbrs.map fun d =>
    if inB g (((decodeIdx g idx).1 : Int) + d.1) (((decodeIdx g idx).2.1 : Int) + d.2.1)
        (((decodeIdx g idx).2.2 : Int) + d.2.2) then
      some (encodeIdx g ((((decodeIdx g idx).1 : Int) + d.1).toNat,
        (((decodeIdx g idx).2.1 : Int) + d.2.1).toNat,
        (((decodeIdx g idx).2.2 : Int) + d.2.2).toNat))
    else none

/-- The occupancy test of the component search, data == 1 on the flat view. -/
def idxGood (g : Grid) (idx : Nat) : Bool := flatVal g idx == 1

/-- Neighbor candidates of a cell during the bubble bfs: add each offset to
the coordinates and bounds check, keeping out-of-bounds candidates as markers
for the boundary flag. -/
def cellExpand (nbrs : List Offset) (g : Grid) (c : Cell) : List (Option Cell) :=
  nbrs.map fun d =>
    if inB g ((c.1 : Int) + d.1) ((c.2.1 : Int) + d.2.1) ((c.2.2 : Int) + d.2.2) then
      some (((c.1 : Int) + d.1).toNat, ((c.2.1 : Int) + d.2.1).toNat, ((c.2.2 : Int) + d.2.2).toNat)
    else none

/-- The emptiness test of the bubble search, data == 0. -/
def emptyGood (g : Grid) (c : Cell) : Bool := g.val c.1 c.2.1 c.2.2 == 0

/-- The occupancy test at cell level, data == 1 (the component bfs applies it
to decoded neighbor coordinates). -/
def cellGood (g : Grid) (c : Cell) : Bool := g.val c.1 c.2.1 c.2.2 == 1

/-- Dispatch on the connectivity argument, shared by both counting operators:
6, 18 and 26 select the corresponding table, anything else raises. -/
def selectNeighbors (connectivity : Nat) : Except String (List Offset) :=
  if connectivity = 6 then .ok NEIGHBORS_6
  else if connectivity = 18 then .ok NEIGHBORS_18
  else if connectivity = 26 then .ok NEIGHBORS_26
  else .error "Invalid connectivity: must be 6, 18, or 26."

/-- find_connected_components: validate the connectivity model, then scan all
flat indices in order, flood filling from every unvisited occupied voxel and
counting one component per fill.  Returns the count together with the data
array as left behind by the call. -/
def find_connected_components (g : Grid) (connectivity : Nat) :
    Except String (Nat × Grid) :=
  match selectNeighbors connectivity with
  | .error e => .error e
  | .ok nbrs =>
    .ok ((scanLoop (idxExpand nbrs) idxGood (fun _ => true) (totalVoxels g + 1)
        (List.range (totalVoxels g)) ⟨g, ∅, false⟩ 0).2,
      (scanLoop (idxExpand nbrs) idxGood (fun _ => true) (totalVoxels g + 1)
        (List.range (totalVoxels g)) ⟨g, ∅, false⟩ 0).1.grid)

/-- All cells of the grid in row-major order (the iteration order of
np.nonzero). -/
def cellList (g : Grid) : List Cell :=
  (List.range g.sx) ×ˢ ((List.range g.sy) ×ˢ (List.range g.sz))

/-- find_bubbles: validate the connectivity model, then scan the empty cells
in row-major order (np.nonzero of data == 0), flood filling from every
unvisited one; a component counts as a bubble when its fill never produced an
out-of-bounds neighbor position.  Returns max(0, bubbles) and the data array
as left behind by the call. -/
def find_bubbles (g : Grid) (connectivity : Nat) : Except String (Nat × Grid) :=
  match selectNeighbors connectivity with
  | .error e => .error e
  | .ok nbrs =>
    .ok (max 0 (scanLoop (cellExpand nbrs) emptyGood (fun fl => !fl) (totalVoxels g + 1)
        ((cellList g).filter (fun c => emptyGood g c)) ⟨g, ∅, false⟩ 0).2,
      (scanLoop (cellExpand nbrs) emptyGood (fun fl => !fl) (totalVoxels g + 1)
        ((cellList g).filter (fun c => emptyGood g c)) ⟨g, ∅, false⟩ 0).1.grid)

/-- The analysis call surface of the spec: the component count alone. -/
def countComponents (g : Grid) (connectivity : Nat) : Except String Nat :=
  (find_connected_components g connectivity).map Prod.fst

/-- The analysis call surface of the spec: the bubble count alone. -/
def countBubbles (g : Grid) (connectivity : Nat) : Except String Nat :=
  (find_bubbles g connectivity).map Prod.fst

/-- The flat indices of the occupied voxels, the carrier of the component
search. -/
def solidIdxSet (g : Grid) : Finset Nat :=
  ((List.range (totalVoxels g)).filter (fun idx => idxGood g idx)).toFinset

/-- The occupied cells of the grid, the solid voxels of the spec. -/
def solidCells (g : Grid) : Finset Cell :=
  ((cellList g).filter (fun c => cellGood g c)).toFinset

/-- The empty cells of the grid, the carrier of the bubble search. -/
def emptyCells (g : Grid) : Finset Cell :=
  ((cellList g).filter (fun c => emptyGood g c)).toFinset

lemma mem_cellList (g : Grid) (c : Cell) :
    c ∈ cellList g ↔ c.1 < g.sx ∧ c.2.1 < g.sy ∧ c.2.2 < g.sz := by
  obtain ⟨x, y, z⟩ := c
  unfold cellList
  rw [List.mem_product]
  simp only
  rw [List.mem_product]
  simp [List.mem_range, and_assoc]

lemma mem_solidIdxSet (g : Grid) (idx : Nat) :
    idx ∈ solidIdxSet g ↔ idx < totalVoxels g ∧ idxGood g idx = true := by
  unfold solidIdxSet
  rw [List.mem_toFinset, List.mem_filter, List.mem_range]

lemma mem_solidCells (g : Grid) (c : Cell) :
    c ∈ solidCells g ↔
      (c.1 < g.sx ∧ c.2.1 < g.sy ∧ c.2.2 < g.sz) ∧ cellGood g c = true := by
  unfold solidCells
  rw [List.mem_toFinset, List.mem_filter, mem_cellList]

lemma mem_emptyCells (g : Grid) (c : Cell) :
    c ∈ emptyCells g ↔
      (c.1 < g.sx ∧ c.2.1 < g.sy ∧ c.2.2 < g.sz) ∧ emptyGood g c = true := by
  unfold emptyCells
  rw [List.mem_toFinset, List.mem_filter, mem_cellList]

lemma cellList_nodup (g : Grid) : (cellList g).Nodup :=
  ((List.nodup_range g.sx).product ((List.nodup_range g.sy).product (List.nodup_range g.sz)))

lemma cellList_length (g : Grid) : (cellList g).length = totalVoxels g := by
  unfold cellList totalVoxels
  rw [List.length_product, List.length_product]
  simp [List.length_range, Nat.mul_assoc]

lemma solidIdxSet_card_le (g : Grid) : (solidIdxSet g).card ≤ totalVoxels g := by
  calc (solidIdxSet g).card ≤ ((List.range (totalVoxels g)).filter
      (fun idx => idxGood g idx)).length := List.toFinset_card_le _
    _ ≤ (List.range (totalVoxels g)).length := List.length_filter_le _ _
    _ = totalVoxels g := List.length_range _

lemma emptyCells_card_le (g : Grid) : (emptyCells g).card ≤ totalVoxels g := by
  calc (emptyCells g).card ≤ ((cellList g).filter
      (fun c => emptyGood g c)).length := List.toFinset_card_le _
    _ ≤ (cellList g).length := List.length_filter_le _ _
    _ = totalVoxels g := cellList_length g

lemma solidCells_card_le (g : Grid) : (solidCells g).card ≤ totalVoxels g := by
  calc (solidCells g).card ≤ ((cellList g).filter
      (fun c => cellGood g c)).length := List.toFinset_card_le _
    _ ≤ (cellList g).length := List.length_filter_le _ _
    _ = totalVoxels g := cellList_length g

lemma mem_idxExpand (nbrs : List Offset) (g : Grid) (idx b : Nat) :
    some b ∈ idxExpand nbrs g idx ↔
      ∃ d ∈ nbrs,
        inB g (((decodeIdx g idx).1 : Int) + d.1) (((decodeIdx g idx).2.1 : Int) + d.2.1)
          (((decodeIdx g idx).2.2 : Int) + d.2.2) ∧
        b = encodeIdx g ((((decodeIdx g idx).1 : Int) + d.1).toNat,
          (((decodeIdx g idx).2.1 : Int) + d.2.1).toNat,
          (((decodeIdx g idx).2.2 : Int) + d.2.2).toNat) := by
  unfold idxExpand
  rw [List.mem_map]
  constructor
  · rintro ⟨d, hd, hed⟩
    by_cases hin : inB g (((decodeIdx g idx).1 : Int) + d.1)
        (((decodeIdx g idx).2.1 : Int) + d.2.1) (((decodeIdx g idx).2.2 : Int) + d.2.2)
    · rw [if_pos hin] at hed
      exact ⟨d, hd, hin, (Option.some.injEq _ _ ▸ hed).symm⟩
    · rw [if_neg hin] at hed
      exact absurd hed (by simp)
  · rintro ⟨d, hd, hin, rfl⟩
    exact ⟨d, hd, by rw [if_pos hin]⟩

lemma some_mem_cellExpand (nbrs : List Offset) (g : Grid) (c : Cell) (b : Cell) :
    some b ∈ cellExpand nbrs g c ↔
      ∃ d ∈ nbrs,
        inB g ((c.1 : Int) + d.1) ((c.2.1 : Int) + d.2.1) ((c.2.2 : Int) + d.2.2) ∧
        b = (((c.1 : Int) + d.1).toNat, ((c.2.1 : Int) + d.2.1).toNat,
          ((c.2.2 : Int) + d.2.2).toNat) := by
  unfold cellExpand
  rw [List.mem_map]
  constructor
  · rintro ⟨d, hd, hed⟩
    by_cases hin : inB g ((c.1 : Int) + d.1) ((c.2.1 : Int) + d.2.1) ((c.2.2 : Int) + d.2.2)
    · rw [if_pos hin] at hed
      exact ⟨d, hd, hin, (Option.some.injEq _ _ ▸ hed).symm⟩
    · rw [if_neg hin] at hed
      exact absurd hed (by simp)
  · rintro ⟨d, hd, hin, rfl⟩
    exact ⟨d, hd, by rw [if_pos hin]⟩

/-- The spec-side boundary predicate of the bubble search: the cell has at
least one neighbor position, under the chosen offsets, that lies outside the
grid. -/
def hasOOB (nbrs : List Offset) (g : Grid) (c : Cell) : Prop :=
  ∃ d ∈ nbrs, ¬ inB g ((c.1 : Int) + d.1) ((c.2.1 : Int) + d.2.1) ((c.2.2 : Int) + d.2.2)

instance (nbrs : List Offset) (g : Grid) (c : Cell) : Decidable (hasOOB nbrs g c) := by
  unfold hasOOB; infer_instance

lemma none_mem_cellExpand (nbrs : List Offset) (g : Grid) (c : Cell) :
    none ∈ cellExpand nbrs g c ↔ hasOOB nbrs g c := by
  unfold cellExpand hasOOB
  rw [List.mem_map]
  constructor
  · rintro ⟨d, hd, hed⟩
    by_cases hin : inB g ((c.1 : Int) + d.1) ((c.2.1 : Int) + d.2.1) ((c.2.2 : Int) + d.2.2)
    · rw [if_pos hin] at hed
      exact absurd hed (by simp)
    · exact ⟨d, hd, hin⟩
  · rintro ⟨d, hd, hin⟩
    exact ⟨d, hd, by rw [if_neg hin]⟩

lemma idx_stepT (nbrs : List Offset) (g : Grid) :
    ∀ a b, stepRel (idxExpand nbrs) idxGood g a b → b ∈ solidIdxSet g := by
  rintro a b ⟨hm, hgb⟩
  obtain ⟨d, hd, hin, rfl⟩ := (mem_idxExpand nbrs g a b).mp hm
  refine (mem_solidIdxSet g _).mpr ⟨?_, hgb⟩
  obtain ⟨h1, h2, h3, h4, h5, h6⟩ := hin
  exact encode_lt_total g _ (by simp only; omega) (by simp only; omega) (by simp only; omega)

lemma cell_stepT_empty (nbrs : List Offset) (g : Grid) :
    ∀ a b, stepRel (cellExpand nbrs) emptyGood g a b → b ∈ emptyCells g := by
  rintro a b ⟨hm, hgb⟩
  obtain ⟨d, hd, hin, rfl⟩ := (some_mem_cellExpand nbrs g a b).mp hm
  refine (mem_emptyCells g _).mpr ⟨?_, hgb⟩
  obtain ⟨h1, h2, h3, h4, h5, h6⟩ := hin
  refine ⟨by simp only; omega, by simp only; omega, by simp only; omega⟩

lemma cell_stepT_solid (nbrs : List Offset) (g : Grid) :
    ∀ a b, stepRel (cellExpand nbrs) cellGood g a b → b ∈ solidCells g := by
  rintro a b ⟨hm, hgb⟩
  obtain ⟨d, hd, hin, rfl⟩ := (some_mem_cellExpand nbrs g a b).mp hm
  refine (mem_solidCells g _).mpr ⟨?_, hgb⟩
  obtain ⟨h1, h2, h3, h4, h5, h6⟩ := hin
  refine ⟨by simp only; omega, by simp only; omega, by simp only; omega⟩

lemma cell_sym (nbrs : List Offset) (g : Grid)
    (hneg : ∀ d ∈ nbrs, ((-d.1, -d.2.1, -d.2.2) : Offset) ∈ nbrs) :
    ∀ a : Cell, a.1 < g.sx → a.2.1 < g.sy → a.2.2 < g.sz →
      ∀ b, some b ∈ cellExpand nbrs g a → some a ∈ cellExpand nbrs g b := by
  intro a hax hay haz b hm
  obtain ⟨d, hd, hin, rfl⟩ := (some_mem_cellExpand nbrs g a b).mp hm
  obtain ⟨h1, h2, h3, h4, h5, h6⟩ := hin
  refine (some_mem_cellExpand nbrs g _ a).mpr ⟨(-d.1, -d.2.1, -d.2.2), hneg d hd, ?_, ?_⟩
  · refine ⟨?_, ?_, ?_, ?_, ?_, ?_⟩ <;> simp only <;> omega
  · obtain ⟨x, y, z⟩ := a
    simp only at hax hay haz h1 h2 h3 h4 h5 h6 ⊢
    refine Prod.ext ?_ (Prod.ext ?_ ?_) <;> simp only <;> omega

lemma idx_symT (nbrs : List Offset) (g : Grid)
    (hneg : ∀ d ∈ nbrs, ((-d.1, -d.2.1, -d.2.2) : Offset) ∈ nbrs) :
    ∀ a ∈ solidIdxSet g, ∀ b, some b ∈ idxExpand nbrs g a → some a ∈ idxExpand nbrs g b := by
  intro a ha b hm
  obtain ⟨halt, _⟩ := (mem_solidIdxSet g a).mp ha
  obtain ⟨hdx, hdy, hdz⟩ := decode_inBounds g a halt
  obtain ⟨d, hd, hin, rfl⟩ := (mem_idxExpand nbrs g a b).mp hm
  obtain ⟨h1, h2, h3, h4, h5, h6⟩ := hin
  have hdec : decodeIdx g (encodeIdx g ((((decodeIdx g a).1 : Int) + d.1).toNat,
      (((decodeIdx g a).2.1 : Int) + d.2.1).toNat,
      (((decodeIdx g a).2.2 : Int) + d.2.2).toNat)) =
      ((((decodeIdx g a).1 : Int) + d.1).toNat,
      (((decodeIdx g a).2.1 : Int) + d.2.1).toNat,
      (((decodeIdx g a).2.2 : Int) + d.2.2).toNat) :=
    decode_encode g _ (by simp only; omega) (by simp only; omega) (by simp only; omega)
  refine (mem_idxExpand nbrs g _ a).mpr ⟨(-d.1, -d.2.1, -d.2.2), hneg d hd, ?_, ?_⟩
  · rw [hdec]
    refine ⟨?_, ?_, ?_, ?_, ?_, ?_⟩ <;> simp only <;> omega
  · rw [hdec]
    suffices h : ∀ q : Cell, q = decodeIdx g a → a = encodeIdx g q by
      apply h
      refine Prod.ext ?_ (Prod.ext ?_ ?_) <;> simp only <;> omega
    rintro q rfl
    exact (encode_decode g a).symm

lemma negClosed_n6 : ∀ d ∈ NEIGHBORS_6, ((-d.1, -d.2.1, -d.2.2) : Offset) ∈ NEIGHBORS_6 := by
  decide

lemma negClosed_n18 : ∀ d ∈ NEIGHBORS_18, ((-d.1, -d.2.1, -d.2.2) : Offset) ∈ NEIGHBORS_18 := by
  decide

lemma negClosed_n26 : ∀ d ∈ NEIGHBORS_26, ((-d.1, -d.2.1, -d.2.2) : Offset) ∈ NEIGHBORS_26 := by
  decide

lemma components_run (g : Grid) (nbrs : List Offset)
    (hneg : ∀ d ∈ nbrs, ((-d.1, -d.2.1, -d.2.2) : Offset) ∈ nbrs) :
    (scanLoop (idxExpand nbrs) idxGood (fun _ => true) (totalVoxels g + 1)
        (List.range (totalVoxels g)) ⟨g, ∅, false⟩ 0).2 =
      (classesOf (idxExpand nbrs) idxGood (solidIdxSet g) g).card ∧
    (scanLoop (idxExpand nbrs) idxGood (fun _ => true) (totalVoxels g + 1)
        (List.range (totalVoxels g)) ⟨g, ∅, false⟩ 0).1.grid = g := by
  have hTgood : ∀ a ∈ solidIdxSet g, idxGood g a = true := fun a ha =>
    ((mem_solidIdxSet g a).mp ha).2
  obtain ⟨h1, h2⟩ := scanLoop_spec (idxExpand nbrs) idxGood (solidIdxSet g) g
    (fun _ => true) (idx_stepT nbrs g) (idx_symT nbrs g hneg) hTgood (totalVoxels g + 1)
    (by have := solidIdxSet_card_le g; omega)
    (List.range (totalVoxels g)) ⟨g, ∅, false⟩ 0 rfl
    (Finset.empty_subset _)
    (fun a ha => absurd ha (Finset.not_mem_empty a))
    (fun c hc => Or.inl (List.mem_range.mpr ((mem_solidIdxSet g c).mp hc).1))
    (fun c hc hgc => (mem_solidIdxSet g c).mpr ⟨List.mem_range.mp hc, hgc⟩)
    (by simp)
  have hall : ∀ C ∈ classesOf (idxExpand nbrs) idxGood (solidIdxSet g) g,
      okClass (idxExpand nbrs) g (fun _ => true) C := fun C _ => rfl
  rw [Finset.filter_true_of_mem hall] at h1
  exact ⟨h1, h2⟩

lemma find_connected_components_eq (g : Grid) (m : Nat) (nbrs : List Offset)
    (hsel : selectNeighbors m = .ok nbrs)
    (hneg : ∀ d ∈ nbrs, ((-d.1, -d.2.1, -d.2.2) : Offset) ∈ nbrs) :
    find_connected_components g m =
      .ok ((classesOf (idxExpand nbrs) idxGood (solidIdxSet g) g).card, g) := by
  obtain ⟨h1, h2⟩ := components_run g nbrs hneg
  simp only [find_connected_components, hsel]
  rw [h1, h2]

lemma bubble_okClass_iff (g : Grid) (nbrs : List Offset) (C : Finset Cell) :
    okClass (cellExpand nbrs) g (fun fl => !fl) C ↔ ∀ a ∈ C, ¬ hasOOB nbrs g a := by
  unfold okClass
  simp only [Bool.not_eq_true', decide_eq_false_iff_not, not_exists, not_and]
  constructor
  · intro h a ha hoob
    exact h a ha ((none_mem_cellExpand nbrs g a).mpr hoob)
  · intro h a ha hn
    exact h a ha ((none_mem_cellExpand nbrs g a).mp hn)

lemma bubbles_run (g : Grid) (nbrs : List Offset)
    (hneg : ∀ d ∈ nbrs, ((-d.1, -d.2.1, -d.2.2) : Offset) ∈ nbrs) :
    (scanLoop (cellExpand nbrs) emptyGood (fun fl => !fl) (totalVoxels g + 1)
        ((cellList g).filter (fun c => emptyGood g c)) ⟨g, ∅, false⟩ 0).2 =
      ((classesOf (cellExpand nbrs) emptyGood (emptyCells g) g).filter
        (fun C => ∀ a ∈ C, ¬ hasOOB nbrs g a)).card ∧
    (scanLoop (cellExpand nbrs) emptyGood (fun fl => !fl) (totalVoxels g + 1)
        ((cellList g).filter (fun c => emptyGood g c)) ⟨g, ∅, false⟩ 0).1.grid = g := by
  have hTgood : ∀ a ∈ emptyCells g, emptyGood g a = true := fun a ha =>
    ((mem_emptyCells g a).mp ha).2
  have hsym : ∀ a ∈ emptyCells g, ∀ b,
      some b ∈ cellExpand nbrs g a → some a ∈ cellExpand nbrs g b := by
    intro a ha b hm
    obtain ⟨⟨h1, h2, h3⟩, _⟩ := (mem_emptyCells g a).mp ha
    exact cell_sym nbrs g hneg a h1 h2 h3 b hm
  obtain ⟨h1, h2⟩ := scanLoop_spec (cellExpand nbrs) emptyGood (emptyCells g) g
    (fun fl => !fl) (cell_stepT_empty nbrs g) hsym hTgood (totalVoxels g + 1)
    (by have := emptyCells_card_le g; omega)
    ((cellList g).filter (fun c => emptyGood g c)) ⟨g, ∅, false⟩ 0 rfl
    (Finset.empty_subset _)
    (fun a ha => absurd ha (Finset.not_mem_empty a))
    (fun c hc => Or.inl (List.mem_filter.mpr
      ⟨(mem_cellList g c).mpr ((mem_emptyCells g c).mp hc).1, ((mem_emptyCells g c).mp hc).2⟩))
    (fun c hc hgc => (mem_emptyCells g c).mpr
      ⟨(mem_cellList g c).mp (List.mem_filter.mp hc).1, hgc⟩)
    (by simp)
  have hall : Finset.filter (okClass (cellExpand nbrs) g (fun fl => !fl))
      (classesOf (cellExpand nbrs) emptyGood (emptyCells g) g) =
      Finset.filter (fun C => ∀ a ∈ C, ¬ hasOOB nbrs g a)
      (classesOf (cellExpand nbrs) emptyGood (emptyCells g) g) :=
    Finset.filter_congr (fun C _ => bubble_okClass_iff g nbrs C)
  rw [hall] at h1
  exact ⟨h1, h2⟩

lemma find_bubbles_eq (g : Grid) (m : Nat) (nbrs : List Offset)
    (hsel : selectNeighbors m = .ok nbrs)
    (hneg : ∀ d ∈ nbrs, ((-d.1, -d.2.1, -d.2.2) : Offset) ∈ nbrs) :
    find_bubbles g m =
      .ok (((classesOf (cellExpand nbrs) emptyGood (emptyCells g) g).filter
        (fun C => ∀ a ∈ C, ¬ hasOOB nbrs g a)).card, g) := by
  obtain ⟨h1, h2⟩ := bubbles_run g nbrs hneg
  simp only [find_bubbles, hsel]
  rw [h1, h2]
  congr 1
  rw [Prod.mk.injEq]
  exact ⟨max_eq_right (Nat.zero_le _), rfl⟩

lemma selectNeighbors_6 : selectNeighbors 6 = .ok NEIGHBORS_6 := rfl

lemma selectNeighbors_18 : selectNeighbors 18 = .ok NEIGHBORS_18 := rfl

lemma selectNeighbors_26 : selectNeighbors 26 = .ok NEIGHBORS_26 := rfl

lemma selectNeighbors_invalid (m : Nat) (h6 : m ≠ 6) (h18 : m ≠ 18) (h26 : m ≠ 26) :
    selectNeighbors m = .error "Invalid connectivity: must be 6, 18, or 26." := by
  unfold selectNeighbors
  rw [if_neg h6, if_neg h18, if_neg h26]

/-- Claim C7: for every grid and every adjacency model outside 6, 18, 26 (for
example 7), both counting operators fail with the invalid-connectivity error;
the validation happens before any traversal state exists, which the embedding
renders as the result being the bare validation error, identical for every
grid (no voxel is inspected, no visited state contributes). -/
theorem C7_invalid_model (g g' : Grid) (m : Nat) (hm : m ≠ 6 ∧ m ≠ 18 ∧ m ≠ 26) :
    countComponents g m = .error "Invalid connectivity: must be 6, 18, or 26." ∧
    countBubbles g m = .error "Invalid connectivity: must be 6, 18, or 26." ∧
    find_connected_components g m = find_connected_components g' m ∧
    find_bubbles g m = find_bubbles g' m := by
  obtain ⟨h6, h18, h26⟩ := hm
  have hsel := selectNeighbors_invalid m h6 h18 h26
  refine ⟨?_, ?_, ?_, ?_⟩ <;>
    simp only [countComponents, countBubbles, find_connected_components, find_bubbles, hsel] <;>
    rfl

/-- Witness for claim C7 at the concrete invalid model 7, on two different
concrete grids. -/
theorem C7_invalid_model_witness :
    ((7 : Nat) ≠ 6 ∧ (7 : Nat) ≠ 18 ∧ (7 : Nat) ≠ 26) ∧
    (countComponents gAll3 7 = .error "Invalid connectivity: must be 6, 18, or 26." ∧
     countBubbles gAll3 7 = .error "Invalid connectivity: must be 6, 18, or 26." ∧
     find_connected_components gAll3 7 = find_connected_components ⟨1, 1, 1, fun _ _ _ => 0⟩ 7 ∧
     find_bubbles gAll3 7 = find_bubbles ⟨1, 1, 1, fun _ _ _ => 0⟩ 7) :=
  ⟨by decide, C7_invalid_model gAll3 ⟨1, 1, 1, fun _ _ _ => 0⟩ 7 (by decide)⟩

/-- Claim C9: for every grid and every valid adjacency model, both counting
operators leave the grid unchanged: the data component of the final state
equals the grid passed in (only the per-call visited state and boundary flag
are ever written). -/
theorem C9_grid_unchanged (g : Grid) (m : Nat) (hm : m = 6 ∨ m = 18 ∨ m = 26) :
    (∃ n, find_connected_components g m = .ok (n, g)) ∧
    (∃ n, find_bubbles g m = .ok (n, g)) := by
  obtain rfl | rfl | rfl := hm
  · exact ⟨⟨_, find_connected_components_eq g 6 NEIGHBORS_6 selectNeighbors_6 negClosed_n6⟩,
      ⟨_, find_bubbles_eq g 6 NEIGHBORS_6 selectNeighbors_6 negClosed_n6⟩⟩
  · exact ⟨⟨_, find_connected_components_eq g 18 NEIGHBORS_18 selectNeighbors_18 negClosed_n18⟩,
      ⟨_, find_bubbles_eq g 18 NEIGHBORS_18 selectNeighbors_18 negClosed_n18⟩⟩
  · exact ⟨⟨_, find_connected_components_eq g 26 NEIGHBORS_26 selectNeighbors_26 negClosed_n26⟩,
      ⟨_, find_bubbles_eq g 26 NEIGHBORS_26 selectNeighbors_26 negClosed_n26⟩⟩

/-- Witness for claim C9 at a concrete grid and model. -/
theorem C9_grid_unchanged_witness :
    ((6 : Nat) = 6 ∨ (6 : Nat) = 18 ∨ (6 : Nat) = 26) ∧
    ((∃ n, find_connected_components gAll3 6 = .ok (n, gAll3)) ∧
     (∃ n, find_bubbles gAll3 6 = .ok (n, gAll3))) :=
  ⟨Or.inl rfl, C9_grid_unchanged gAll3 6 (Or.inl rfl)⟩

lemma idxGood_eq (g : Grid) (i : Nat) : idxGood g i = cellGood g (decodeIdx g i) := rfl

lemma idx_step_to_cell (nbrs : List Offset) (g : Grid) {a b : Nat}
    (h : stepRel (idxExpand nbrs) idxGood g a b) :
    stepRel (cellExpand nbrs) cellGood g (decodeIdx g a) (decodeIdx g b) := by
  obtain ⟨hm, hgb⟩ := h
  obtain ⟨d, hd, hin, rfl⟩ := (mem_idxExpand nbrs g a b).mp hm
  obtain ⟨h1, h2, h3, h4, h5, h6⟩ := hin
  have hdec : decodeIdx g (encodeIdx g ((((decodeIdx g a).1 : Int) + d.1).toNat,
      (((decodeIdx g a).2.1 : Int) + d.2.1).toNat,
      (((decodeIdx g a).2.2 : Int) + d.2.2).toNat)) =
      ((((decodeIdx g a).1 : Int) + d.1).toNat,
      (((decodeIdx g a).2.1 : Int) + d.2.1).toNat,
      (((decodeIdx g a).2.2 : Int) + d.2.2).toNat) :=
    decode_encode g _ (by simp only; omega) (by simp only; omega) (by simp only; omega)
  rw [idxGood_eq, hdec] at hgb
  constructor
  · rw [hdec]
    exact (some_mem_cellExpand nbrs g _ _).mpr ⟨d, hd, ⟨h1, h2, h3, h4, h5, h6⟩, rfl⟩
  · rw [hdec]
    exact hgb

lemma cell_step_to_idx (nbrs : List Offset) (g : Grid) {ca cb : Cell}
    (h : stepRel (cellExpand nbrs) cellGood g ca cb)
    (a : Nat) (hda : decodeIdx g a = ca) :
    stepRel (idxExpand nbrs) idxGood g a (encodeIdx g cb) ∧
      decodeIdx g (encodeIdx g cb) = cb := by
  obtain ⟨hm, hgb⟩ := h
  obtain ⟨d, hd, hin, rfl⟩ := (some_mem_cellExpand nbrs g ca _).mp hm
  obtain ⟨h1, h2, h3, h4, h5, h6⟩ := hin
  have hdec : decodeIdx g (encodeIdx g ((((ca.1 : Int) + d.1).toNat,
      ((ca.2.1 : Int) + d.2.1).toNat, ((ca.2.2 : Int) + d.2.2).toNat) : Cell)) =
      ((((ca.1 : Int) + d.1).toNat,
      ((ca.2.1 : Int) + d.2.1).toNat, ((ca.2.2 : Int) + d.2.2).toNat) : Cell) :=
    decode_encode g _ (by simp only; omega) (by simp only; omega) (by simp only; omega)
  refine ⟨⟨?_, ?_⟩, hdec⟩
  · refine (mem_idxExpand nbrs g a _).mpr ⟨d, hd, ?_, ?_⟩
    · rw [hda]
      exact ⟨h1, h2, h3, h4, h5, h6⟩
    · rw [hda]
  · rw [idxGood_eq, hdec]
    exact hgb

lemma idx_reach_to_cell (nbrs : List Offset) (g : Grid) {a b : Nat}
    (h : reach (idxExpand nbrs) idxGood g a b) :
    reach (cellExpand nbrs) cellGood g (decodeIdx g a) (decodeIdx g b) := by
  induction h with
  | refl => exact Relation.ReflTransGen.refl
  | tail _ hstep ih => exact Relation.ReflTransGen.tail ih (idx_step_to_cell nbrs g hstep)

lemma cell_reach_to_idx (nbrs : List Offset) (g : Grid) {ca w : Cell}
    (h : reach (cellExpand nbrs) cellGood g ca w) :
    ∀ a, decodeIdx g a = ca →
      ∃ b, decodeIdx g b = w ∧ reach (idxExpand nbrs) idxGood g a b := by
  induction h with
  | refl => intro a ha; exact ⟨a, ha, Relation.ReflTransGen.refl⟩
  | tail _ hstep ih =>
    intro a ha
    obtain ⟨b', hdb', hrb'⟩ := ih a ha
    obtain ⟨hstep', hdec⟩ := cell_step_to_idx nbrs g hstep b' hdb'
    exact ⟨_, hdec, Relation.ReflTransGen.tail hrb' hstep'⟩

lemma decode_mem_solidCells (g : Grid) {i : Nat} (hi : i ∈ solidIdxSet g) :
    decodeIdx g i ∈ solidCells g := by
  obtain ⟨hlt, hg⟩ := (mem_solidIdxSet g i).mp hi
  rw [idxGood_eq] at hg
  exact (mem_solidCells g _).mpr ⟨decode_inBounds g i hlt, hg⟩

lemma encode_mem_solidIdxSet (g : Grid) {c : Cell} (hc : c ∈ solidCells g) :
    encodeIdx g c ∈ solidIdxSet g ∧ decodeIdx g (encodeIdx g c) = c := by
  obtain ⟨⟨h1, h2, h3⟩, hg⟩ := (mem_solidCells g c).mp hc
  have hdec := decode_encode g c h1 h2 h3
  refine ⟨(mem_solidIdxSet g _).mpr ⟨encode_lt_total g c h1 h2 h3, ?_⟩, hdec⟩
  rw [idxGood_eq, hdec]
  exact hg

lemma component_image (nbrs : List Offset) (g : Grid) (v : Nat) (hv : v ∈ solidIdxSet g) :
    (componentOf (idxExpand nbrs) idxGood (solidIdxSet g) g v).image (decodeIdx g) =
      componentOf (cellExpand nbrs) cellGood (solidCells g) g (decodeIdx g v) := by
  have hdv : decodeIdx g v ∈ solidCells g := decode_mem_solidCells g hv
  ext w
  constructor
  · intro hw
    obtain ⟨i, hi, rfl⟩ := Finset.mem_image.mp hw
    obtain ⟨hiT, hir⟩ := (mem_componentOf (idxExpand nbrs) idxGood (solidIdxSet g) g
      (idx_stepT nbrs g) v hv i).mp hi
    exact (mem_componentOf (cellExpand nbrs) cellGood (solidCells g) g
      (cell_stepT_solid nbrs g) _ hdv _).mpr
      ⟨decode_mem_solidCells g hiT, idx_reach_to_cell nbrs g hir⟩
  · intro hw
    obtain ⟨hwT, hwr⟩ := (mem_componentOf (cellExpand nbrs) cellGood (solidCells g) g
      (cell_stepT_solid nbrs g) _ hdv w).mp hw
    obtain ⟨b, hdb, hrb⟩ := cell_reach_to_idx nbrs g hwr v rfl
    have hbT : b ∈ solidIdxSet g :=
      reach_mem_T (idxExpand nbrs) idxGood (solidIdxSet g) g (idx_stepT nbrs g) hv hrb
    exact Finset.mem_image.mpr ⟨b, (mem_componentOf (idxExpand nbrs) idxGood
      (solidIdxSet g) g (idx_stepT nbrs g) v hv b).mpr ⟨hbT, hrb⟩, hdb⟩

lemma classes_transfer (nbrs : List Offset) (g : Grid) :
    (classesOf (idxExpand nbrs) idxGood (solidIdxSet g) g).card =
      (classesOf (cellExpand nbrs) cellGood (solidCells g) g).card := by
  have recov : ∀ C : Finset Nat, (C.image (decodeIdx g)).image (encodeIdx g) = C := by
    intro C
    rw [Finset.image_image]
    calc C.image (encodeIdx g ∘ decodeIdx g)
        = C.image id := Finset.image_congr (fun i _ => encode_decode g i)
      _ = C := Finset.image_id
  apply Finset.card_bij (fun C _ => C.image (decodeIdx g))
  · intro C hC
    obtain ⟨v, hv, rfl⟩ := Finset.mem_image.mp hC
    rw [component_image nbrs g v hv]
    exact Finset.mem_image_of_mem _ (decode_mem_solidCells g hv)
  · intro C1 h1 C2 h2 heq
    calc C1 = (C1.image (decodeIdx g)).image (encodeIdx g) := (recov C1).symm
      _ = (C2.image (decodeIdx g)).image (encodeIdx g) := by rw [heq]
      _ = C2 := recov C2
  · intro D hD
    obtain ⟨w, hw, rfl⟩ := Finset.mem_image.mp hD
    obtain ⟨henc, hdec⟩ := encode_mem_solidIdxSet g hw
    refine ⟨componentOf (idxExpand nbrs) idxGood (solidIdxSet g) g (encodeIdx g w),
      Finset.mem_image_of_mem _ henc, ?_⟩
    rw [component_image nbrs g _ henc, hdec]

/-- Spec-side adjacency: the target coordinates differ from the source by one
of the offsets of the chosen table. -/
def cellAdj (nbrs : List Offset) (a b : Cell) : Prop :=
  ∃ d ∈ nbrs, (b.1 : Int) = (a.1 : Int) + d.1 ∧ (b.2.1 : Int) = (a.2.1 : Int) + d.2.1 ∧
    (b.2.2 : Int) = (a.2.2 : Int) + d.2.2

/-- Spec-side connectivity of the solid voxels: the reflexive-transitive
closure of adjacency restricted to solid cells. -/
def cellConnected (g : Grid) (nbrs : List Offset) : Cell → Cell → Prop :=
  Relation.ReflTransGen (fun a b => cellAdj nbrs a b ∧ b ∈ solidCells g)

/-- Spec-side connectivity of the empty voxels. -/
def cellConnected0 (g : Grid) (nbrs : List Offset) : Cell → Cell → Prop :=
  Relation.ReflTransGen (fun a b => cellAdj nbrs a b ∧ b ∈ emptyCells g)

lemma cell_step_iff (g : Grid) (goodB : Grid → Cell → Bool) (TC : Finset Cell)
    (hT : ∀ c : Cell, c ∈ TC ↔ (c.1 < g.sx ∧ c.2.1 < g.sy ∧ c.2.2 < g.sz) ∧ goodB g c = true)
    (nbrs : List Offset) (a b : Cell) :
    stepRel (cellExpand nbrs) goodB g a b ↔ (cellAdj nbrs a b ∧ b ∈ TC) := by
  constructor
  · rintro ⟨hm, hgb⟩
    obtain ⟨d, hd, hin, rfl⟩ := (some_mem_cellExpand nbrs g a _).mp hm
    obtain ⟨h1, h2, h3, h4, h5, h6⟩ := hin
    refine ⟨⟨d, hd, ?_, ?_, ?_⟩, (hT _).mpr ⟨⟨?_, ?_, ?_⟩, hgb⟩⟩ <;> simp only <;> omega
  · rintro ⟨⟨d, hd, e1, e2, e3⟩, hb⟩
    obtain ⟨⟨h1, h2, h3⟩, hgb⟩ := (hT b).mp hb
    refine ⟨(some_mem_cellExpand nbrs g a b).mpr ⟨d, hd, ?_, ?_⟩, hgb⟩
    · refine ⟨?_, ?_, ?_, ?_, ?_, ?_⟩ <;> omega
    · obtain ⟨bx, by_, bz⟩ := b
      simp only at e1 e2 e3 h1 h2 h3
      refine Prod.ext ?_ (Prod.ext ?_ ?_) <;> simp only <;> omega

lemma cell_conn_iff (g : Grid) (goodB : Grid → Cell → Bool) (TC : Finset Cell)
    (hT : ∀ c : Cell, c ∈ TC ↔ (c.1 < g.sx ∧ c.2.1 < g.sy ∧ c.2.2 < g.sz) ∧ goodB g c = true)
    (nbrs : List Offset) (a b : Cell) :
    Relation.ReflTransGen (fun a b => cellAdj nbrs a b ∧ b ∈ TC) a b ↔
      reach (cellExpand nbrs) goodB g a b := by
  constructor
  · exact Relation.ReflTransGen.mono
      (fun x y hxy => (cell_step_iff g goodB TC hT nbrs x y).mpr hxy)
  · exact Relation.ReflTransGen.mono
      (fun x y hxy => (cell_step_iff g goodB TC hT nbrs x y).mp hxy)

lemma cell_classes_char (g : Grid) (goodB : Grid → Cell → Bool) (TC : Finset Cell)
    (hT : ∀ c : Cell, c ∈ TC ↔ (c.1 < g.sx ∧ c.2.1 < g.sy ∧ c.2.2 < g.sz) ∧ goodB g c = true)
    (nbrs : List Offset)
    (hneg : ∀ d ∈ nbrs, ((-d.1, -d.2.1, -d.2.2) : Offset) ∈ nbrs)
    (C : Finset Cell) :
    C ∈ classesOf (cellExpand nbrs) goodB TC g ↔
      (C.Nonempty ∧ (∀ w ∈ C, w ∈ TC) ∧
       (∀ a ∈ C, ∀ b ∈ C, Relation.ReflTransGen (fun a b => cellAdj nbrs a b ∧ b ∈ TC) a b) ∧
       (∀ a ∈ C, ∀ b ∈ TC,
         Relation.ReflTransGen (fun a b => cellAdj nbrs a b ∧ b ∈ TC) a b → b ∈ C)) := by
  have hstepT : ∀ a b, stepRel (cellExpand nbrs) goodB g a b → b ∈ TC := fun a b hs =>
    ((cell_step_iff g goodB TC hT nbrs a b).mp hs).2
  have hTgood : ∀ a ∈ TC, goodB g a = true := fun a ha => ((hT a).mp ha).2
  have hsymT : ∀ a ∈ TC, ∀ b, some b ∈ cellExpand nbrs g a → some a ∈ cellExpand nbrs g b := by
    intro a ha b hm
    obtain ⟨⟨h1, h2, h3⟩, _⟩ := (hT a).mp ha
    exact cell_sym nbrs g hneg a h1 h2 h3 b hm
  constructor
  · intro hC
    obtain ⟨v, hv, rfl⟩ := Finset.mem_image.mp hC
    have hvmem : v ∈ componentOf (cellExpand nbrs) goodB TC g v :=
      (mem_componentOf (cellExpand nbrs) goodB TC g hstepT v hv v).mpr
        ⟨hv, Relation.ReflTransGen.refl⟩
    refine ⟨⟨v, hvmem⟩, ?_, ?_, ?_⟩
    · intro w hw
      exact ((mem_componentOf (cellExpand nbrs) goodB TC g hstepT v hv w).mp hw).1
    · intro a ha b hb
      obtain ⟨haT, hra⟩ := (mem_componentOf (cellExpand nbrs) goodB TC g hstepT v hv a).mp ha
      obtain ⟨hbT, hrb⟩ := (mem_componentOf (cellExpand nbrs) goodB TC g hstepT v hv b).mp hb
      have hav : reach (cellExpand nbrs) goodB g a v :=
        reach_symm (cellExpand nbrs) goodB TC g hstepT hsymT hTgood hv hra
      exact (cell_conn_iff g goodB TC hT nbrs a b).mpr (Relation.ReflTransGen.trans hav hrb)
    · intro a ha b hbT hconn
      obtain ⟨haT, hra⟩ := (mem_componentOf (cellExpand nbrs) goodB TC g hstepT v hv a).mp ha
      have hab : reach (cellExpand nbrs) goodB g a b :=
        (cell_conn_iff g goodB TC hT nbrs a b).mp hconn
      exact (mem_componentOf (cellExpand nbrs) goodB TC g hstepT v hv b).mpr
        ⟨hbT, Relation.ReflTransGen.trans hra hab⟩
  · rintro ⟨⟨v, hvC⟩, hsub, hpair, habs⟩
    have hvT : v ∈ TC := hsub v hvC
    have hCeq : C = componentOf (cellExpand nbrs) goodB TC g v := by
      apply Finset.Subset.antisymm
      · intro a ha
        exact (mem_componentOf (cellExpand nbrs) goodB TC g hstepT v hvT a).mpr
          ⟨hsub a ha, (cell_conn_iff g goodB TC hT nbrs v a).mp (hpair v hvC a ha)⟩
      · intro w hw
        obtain ⟨hwT, hwr⟩ := (mem_componentOf (cellExpand nbrs) goodB TC g hstepT v hvT w).mp hw
        exact habs v hvC w hwT ((cell_conn_iff g goodB TC hT nbrs v w).mpr hwr)
    rw [hCeq]
    exact Finset.mem_image_of_mem _ hvT

/-- The set of maximal connected subsets of solid voxels computed per seed:
the spec-side component collection the claims compare against. -/
def componentsSpec (g : Grid) (nbrs : List Offset) : Finset (Finset Cell) :=
  classesOf (cellExpand nbrs) cellGood (solidCells g) g

/-- The spec-side bubble collection: the connected components of empty voxels
none of whose cells has an out-of-bounds neighbor under the chosen offsets. -/
def bubblesSpec (g : Grid) (nbrs : List Offset) : Finset (Finset Cell) :=
  (classesOf (cellExpand nbrs) emptyGood (emptyCells g) g).filter
    (fun C => ∀ a ∈ C, ¬ hasOOB nbrs g a)

lemma table_dispatch (m : Nat) (nbrs : List Offset)
    (hm : (m = 6 ∧ nbrs = NEIGHBORS_6) ∨ (m = 18 ∧ nbrs = NEIGHBORS_18) ∨
      (m = 26 ∧ nbrs = NEIGHBORS_26)) :
    selectNeighbors m = .ok nbrs ∧
      (∀ d ∈ nbrs, ((-d.1, -d.2.1, -d.2.2) : Offset) ∈ nbrs) := by
  obtain ⟨rfl, rfl⟩ | ⟨rfl, rfl⟩ | ⟨rfl, rfl⟩ := hm
  · exact ⟨selectNeighbors_6, negClosed_n6⟩
  · exact ⟨selectNeighbors_18, negClosed_n18⟩
  · exact ⟨selectNeighbors_26, negClosed_n26⟩

/-- Claim C3: for every binary grid and every valid adjacency model,
countComponents returns the number of maximal connected subsets of solid
(value 1) voxels under that model: the result equals the cardinality of the
component collection, whose members are characterized as exactly the
nonempty, pairwise connected, absorption-maximal subsets of solid cells; a
grid with no solid voxel yields 0. -/
theorem C3_count_components (g : Grid) (hB : Binary g) (m : Nat) (nbrs : List Offset)
    (hm : (m = 6 ∧ nbrs = NEIGHBORS_6) ∨ (m = 18 ∧ nbrs = NEIGHBORS_18) ∨
      (m = 26 ∧ nbrs = NEIGHBORS_26)) :
    countComponents g m = .ok (componentsSpec g nbrs).card ∧
    (∀ C : Finset Cell, C ∈ componentsSpec g nbrs ↔
      (C.Nonempty ∧ (∀ w ∈ C, w ∈ solidCells g) ∧
       (∀ a ∈ C, ∀ b ∈ C, cellConnected g nbrs a b) ∧
       (∀ a ∈ C, ∀ b ∈ solidCells g, cellConnected g nbrs a b → b ∈ C))) ∧
    (solidCells g = ∅ → countComponents g m = .ok 0) := by
  obtain ⟨hsel, hneg⟩ := table_dispatch m nbrs hm
  have himpl := find_connected_components_eq g m nbrs hsel hneg
  have hcnt : countComponents g m = .ok (componentsSpec g nbrs).card := by
    unfold countComponents
    rw [himpl]
    unfold componentsSpec
    rw [Except.map, classes_transfer nbrs g]
  refine ⟨hcnt, ?_, ?_⟩
  · intro C
    exact cell_classes_char g cellGood (solidCells g) (mem_solidCells g) nbrs hneg C
  · intro hempty
    rw [hcnt]
    unfold componentsSpec classesOf
    rw [hempty]
    simp

/-- Witness for claim C3 on the full 3x3x3 block with the 6-model. -/
theorem C3_count_components_witness :
    (Binary gAll3 ∧ ((6 : Nat) = 6 ∧ NEIGHBORS_6 = NEIGHBORS_6)) ∧
    (countComponents gAll3 6 = .ok (componentsSpec gAll3 NEIGHBORS_6).card ∧
     (∀ C : Finset Cell, C ∈ componentsSpec gAll3 NEIGHBORS_6 ↔
       (C.Nonempty ∧ (∀ w ∈ C, w ∈ solidCells gAll3) ∧
        (∀ a ∈ C, ∀ b ∈ C, cellConnected gAll3 NEIGHBORS_6 a b) ∧
        (∀ a ∈ C, ∀ b ∈ solidCells gAll3, cellConnected gAll3 NEIGHBORS_6 a b → b ∈ C))) ∧
     (solidCells gAll3 = ∅ → countComponents gAll3 6 = .ok 0)) :=
  ⟨⟨by decide, rfl, rfl⟩, C3_count_components gAll3 (by decide) 6 NEIGHBORS_6 (Or.inl ⟨rfl, rfl⟩)⟩

/-- The 3x3x3 grid of all 1s except the center voxel set to 0. -/
def gHole : Grid := ⟨3, 3, 3, fun x y z => if x = 1 ∧ y = 1 ∧ z = 1 then 0 else 1⟩

/-- The 3x3x3 grid of all 0s. -/
def gZero3 : Grid := ⟨3, 3, 3, fun _ _ _ => 0⟩

/-- Claim C4: for every binary grid and valid adjacency model, countBubbles
returns the number of connected components of empty (value 0) voxels in which
no voxel has an out-of-bounds neighbor under that model; on the 3x3x3 block
with a hollow center it returns 1 for all three models, and on the all-zero
3x3x3 grid it returns 0 for all three models. -/
theorem C4_count_bubbles (g : Grid) (hB : Binary g) (m : Nat) (nbrs : List Offset)
    (hm : (m = 6 ∧ nbrs = NEIGHBORS_6) ∨ (m = 18 ∧ nbrs = NEIGHBORS_18) ∨
      (m = 26 ∧ nbrs = NEIGHBORS_26)) :
    countBubbles g m = .ok (bubblesSpec g nbrs).card ∧
    (∀ C : Finset Cell, C ∈ bubblesSpec g nbrs ↔
      ((C.Nonempty ∧ (∀ w ∈ C, w ∈ emptyCells g) ∧
        (∀ a ∈ C, ∀ b ∈ C, cellConnected0 g nbrs a b) ∧
        (∀ a ∈ C, ∀ b ∈ emptyCells g, cellConnected0 g nbrs a b → b ∈ C)) ∧
       (∀ a ∈ C, ¬ hasOOB nbrs g a))) ∧
    (countBubbles gHole 6 = .ok 1 ∧ countBubbles gHole 18 = .ok 1 ∧
      countBubbles gHole 26 = .ok 1) ∧
    (countBubbles gZero3 6 = .ok 0 ∧ countBubbles gZero3 18 = .ok 0 ∧
      countBubbles gZero3 26 = .ok 0) := by
  obtain ⟨hsel, hneg⟩ := table_dispatch m nbrs hm
  have himpl := find_bubbles_eq g m nbrs hsel hneg
  refine ⟨?_, ?_, ⟨by rfl, by rfl, by rfl⟩, ⟨by rfl, by rfl, by rfl⟩⟩
  · unfold countBubbles
    rw [himpl]
    rfl
  · intro C
    unfold bubblesSpec
    rw [Finset.mem_filter]
    constructor
    · rintro ⟨hC, hok⟩
      exact ⟨(cell_classes_char g emptyGood (emptyCells g) (mem_emptyCells g)
        nbrs hneg C).mp hC, hok⟩
    · rintro ⟨hC, hok⟩
      exact ⟨(cell_classes_char g emptyGood (emptyCells g) (mem_emptyCells g)
        nbrs hneg C).mpr hC, hok⟩

/-- Witness for claim C4 on the hollow-center block with the 6-model. -/
theorem C4_count_bubbles_witness :
    (Binary gHole ∧ ((6 : Nat) = 6 ∧ NEIGHBORS_6 = NEIGHBORS_6)) ∧
    countBubbles gHole 6 = .ok (bubblesSpec gHole NEIGHBORS_6).card :=
  ⟨⟨by decide, rfl, rfl⟩,
    (C4_count_bubbles gHole (by decide) 6 NEIGHBORS_6 (Or.inl ⟨rfl, rfl⟩)).1⟩

lemma n6_subset_n18 : ∀ d ∈ NEIGHBORS_6, d ∈ NEIGHBORS_18 := by decide

lemma n18_subset_n26 : ∀ d ∈ NEIGHBORS_18, d ∈ NEIGHBORS_26 := by decide

lemma cellExpand_mono (nbrsA nbrsB : List Offset) (g : Grid)
    (hsub : ∀ d ∈ nbrsA, d ∈ nbrsB) (a b : Cell)
    (h : some b ∈ cellExpand nbrsA g a) : some b ∈ cellExpand nbrsB g a := by
  obtain ⟨d, hd, hin, rfl⟩ := (some_mem_cellExpand nbrsA g a b).mp h
  exact (some_mem_cellExpand nbrsB g a _).mpr ⟨d, hsub d hd, hin, rfl⟩

lemma hasOOB_iff_n6 (g : Grid) (nbrs : List Offset)
    (hbound : ∀ d ∈ nbrs, d.1.natAbs ≤ 1 ∧ d.2.1.natAbs ≤ 1 ∧ d.2.2.natAbs ≤ 1)
    (hsup : ∀ d ∈ NEIGHBORS_6, d ∈ nbrs)
    (a : Cell) (hax : a.1 < g.sx) (hay : a.2.1 < g.sy) (haz : a.2.2 < g.sz) :
    hasOOB nbrs g a ↔ hasOOB NEIGHBORS_6 g a := by
  constructor
  · rintro ⟨d, hd, hviol⟩
    obtain ⟨hb1, hb2, hb3⟩ := hbound d hd
    simp only [inB, not_and_or, not_le, not_lt] at hviol
    rcases hviol with h | h | h | h | h | h
    · exact ⟨(-1, 0, 0), by decide, by simp only [inB, not_and_or, not_le, not_lt]; left; omega⟩
    · refine ⟨(1, 0, 0), by decide, ?_⟩
      simp only [inB, not_and_or, not_le, not_lt]
      right; left; omega
    · exact ⟨(0, -1, 0), by decide, by
        simp only [inB, not_and_or, not_le, not_lt]
        right; right; left; omega⟩
    · exact ⟨(0, 1, 0), by decide, by
        simp only [inB, not_and_or, not_le, not_lt]
        right; right; right; left; omega⟩
    · exact ⟨(0, 0, -1), by decide, by
        simp only [inB, not_and_or, not_le, not_lt]
        right; right; right; right; left; omega⟩
    · exact ⟨(0, 0, 1), by decide, by
        simp only [inB, not_and_or, not_le, not_lt]
        right; right; right; right; right; omega⟩
  · rintro ⟨d, hd, hviol⟩
    exact ⟨d, hsup d hd, hviol⟩

lemma classes_filter_mono {α : Type} [DecidableEq α]
    (expandA expandB : Grid → α → List (Option α)) (goodB : Grid → α → Bool)
    (T : Finset α) (g : Grid)
    (hstepTA : ∀ a b, stepRel expandA goodB g a b → b ∈ T)
    (hstepTB : ∀ a b, stepRel expandB goodB g a b → b ∈ T)
    (hsymTB : ∀ a ∈ T, ∀ b, some b ∈ expandB g a → some a ∈ expandB g b)
    (hTgood : ∀ a ∈ T, goodB g a = true)
    (hAB : ∀ a b, stepRel expandA goodB g a b → stepRel expandB goodB g a b)
    (P Q : α → Prop) [DecidablePred P] [DecidablePred Q]
    (hPQ : ∀ a ∈ T, (P a ↔ Q a)) :
    ((classesOf expandB goodB T g).filter (fun C => ∀ a ∈ C, ¬ Q a)).card ≤
      ((classesOf expandA goodB T g).filter (fun C => ∀ a ∈ C, ¬ P a)).card := by
  classical
  have hreachAB : ∀ {a b : α}, reach expandA goodB g a b → reach expandB goodB g a b :=
    fun h => Relation.ReflTransGen.mono (fun x y hxy => hAB x y hxy) h
  apply Finset.card_le_card_of_surjOn
    (fun C => T.filter (fun w => ∀ v ∈ C, reach expandB goodB g v w))
  intro D hD
  rw [Finset.mem_coe, Finset.mem_filter] at hD
  obtain ⟨hDc, hDok⟩ := hD
  obtain ⟨v, hv, rfl⟩ := Finset.mem_image.mp hDc
  have hCA : componentOf expandA goodB T g v ∈
      (classesOf expandA goodB T g).filter (fun C => ∀ a ∈ C, ¬ P a) := by
    rw [Finset.mem_filter]
    refine ⟨Finset.mem_image_of_mem _ hv, ?_⟩
    intro a ha
    obtain ⟨haT, hra⟩ := (mem_componentOf expandA goodB T g hstepTA v hv a).mp ha
    have haB : a ∈ componentOf expandB goodB T g v :=
      (mem_componentOf expandB goodB T g hstepTB v hv a).mpr ⟨haT, hreachAB hra⟩
    exact fun hP => hDok a haB ((hPQ a haT).mp hP)
  rw [Set.mem_image]
  refine ⟨componentOf expandA goodB T g v, Finset.mem_coe.mpr hCA, ?_⟩
  ext w
  rw [Finset.mem_filter]
  constructor
  · rintro ⟨hwT, hall⟩
    have hvA : v ∈ componentOf expandA goodB T g v :=
      (mem_componentOf expandA goodB T g hstepTA v hv v).mpr
        ⟨hv, Relation.ReflTransGen.refl⟩
    exact (mem_componentOf expandB goodB T g hstepTB v hv w).mpr ⟨hwT, hall v hvA⟩
  · intro hw
    obtain ⟨hwT, hwr⟩ := (mem_componentOf expandB goodB T g hstepTB v hv w).mp hw
    refine ⟨hwT, ?_⟩
    intro u hu
    obtain ⟨huT, hur⟩ := (mem_componentOf expandA goodB T g hstepTA v hv u).mp hu
    have huv : reach expandB goodB g u v :=
      reach_symm expandB goodB T g hstepTB hsymTB hTgood hv (hreachAB hur)
    exact Relation.ReflTransGen.trans huv hwr

lemma countComponents_eq_spec (g : Grid) (m : Nat) (nbrs : List Offset)
    (hm : (m = 6 ∧ nbrs = NEIGHBORS_6) ∨ (m = 18 ∧ nbrs = NEIGHBORS_18) ∨
      (m = 26 ∧ nbrs = NEIGHBORS_26)) :
    countComponents g m = .ok (componentsSpec g nbrs).card := by
  obtain ⟨hsel, hneg⟩ := table_dispatch m nbrs hm
  unfold countComponents
  rw [find_connected_components_eq g m nbrs hsel hneg]
  unfold componentsSpec
  rw [Except.map, classes_transfer nbrs g]

lemma countBubbles_eq_spec (g : Grid) (m : Nat) (nbrs : List Offset)
    (hm : (m = 6 ∧ nbrs = NEIGHBORS_6) ∨ (m = 18 ∧ nbrs = NEIGHBORS_18) ∨
      (m = 26 ∧ nbrs = NEIGHBORS_26)) :
    countBubbles g m = .ok (bubblesSpec g nbrs).card := by
  obtain ⟨hsel, hneg⟩ := table_dispatch m nbrs hm
  unfold countBubbles
  rw [find_bubbles_eq g m nbrs hsel hneg]
  rfl

lemma cell_symT_of_mem (nbrs : List Offset) (g : Grid)
    (hneg : ∀ d ∈ nbrs, ((-d.1, -d.2.1, -d.2.2) : Offset) ∈ nbrs)
    (goodB : Grid → Cell → Bool) (TC : Finset Cell)
    (hT : ∀ c : Cell, c ∈ TC ↔ (c.1 < g.sx ∧ c.2.1 < g.sy ∧ c.2.2 < g.sz) ∧ goodB g c = true) :
    ∀ a ∈ TC, ∀ b, some b ∈ cellExpand nbrs g a → some a ∈ cellExpand nbrs g b := by
  intro a ha b hm
  obtain ⟨⟨h1, h2, h3⟩, _⟩ := (hT a).mp ha
  exact cell_sym nbrs g hneg a h1 h2 h3 b hm

lemma componentsSpec_mono (g : Grid) (nbrsA nbrsB : List Offset)
    (hsub : ∀ d ∈ nbrsA, d ∈ nbrsB)
    (hnegB : ∀ d ∈ nbrsB, ((-d.1, -d.2.1, -d.2.2) : Offset) ∈ nbrsB) :
    (componentsSpec g nbrsB).card ≤ (componentsSpec g nbrsA).card := by
  have hfilt : ∀ E : Finset (Finset Cell),
      E.filter (fun C => ∀ a ∈ C, ¬ False) = E := fun E =>
    Finset.filter_true_of_mem (fun C _ a _ h => h)
  have := classes_filter_mono (cellExpand nbrsA) (cellExpand nbrsB) cellGood
    (solidCells g) g (cell_stepT_solid nbrsA g) (cell_stepT_solid nbrsB g)
    (cell_symT_of_mem nbrsB g hnegB cellGood (solidCells g) (mem_solidCells g))
    (fun a ha => ((mem_solidCells g a).mp ha).2)
    (fun a b hs => ⟨cellExpand_mono nbrsA nbrsB g hsub a b hs.1, hs.2⟩)
    (fun _ => False) (fun _ => False) (fun a _ => Iff.rfl)
  rw [hfilt, hfilt] at this
  exact this

lemma bubblesSpec_mono (g : Grid) (nbrsA nbrsB : List Offset)
    (hsub : ∀ d ∈ nbrsA, d ∈ nbrsB)
    (hnegB : ∀ d ∈ nbrsB, ((-d.1, -d.2.1, -d.2.2) : Offset) ∈ nbrsB)
    (hPQ : ∀ a ∈ emptyCells g, (hasOOB nbrsA g a ↔ hasOOB nbrsB g a)) :
    (bubblesSpec g nbrsB).card ≤ (bubblesSpec g nbrsA).card := by
  unfold bubblesSpec
  exact classes_filter_mono (cellExpand nbrsA) (cellExpand nbrsB) emptyGood
    (emptyCells g) g (cell_stepT_empty nbrsA g) (cell_stepT_empty nbrsB g)
    (cell_symT_of_mem nbrsB g hnegB emptyGood (emptyCells g) (mem_emptyCells g))
    (fun a ha => ((mem_emptyCells g a).mp ha).2)
    (fun a b hs => ⟨cellExpand_mono nbrsA nbrsB g hsub a b hs.1, hs.2⟩)
    (hasOOB nbrsA g) (hasOOB nbrsB g) hPQ

lemma hasOOB_18_iff (g : Grid) (a : Cell)
    (hax : a.1 < g.sx) (hay : a.2.1 < g.sy) (haz : a.2.2 < g.sz) :
    hasOOB NEIGHBORS_18 g a ↔ hasOOB NEIGHBORS_6 g a :=
  hasOOB_iff_n6 g NEIGHBORS_18 mem_n18_bounded n6_subset_n18 a hax hay haz

lemma hasOOB_26_iff (g : Grid) (a : Cell)
    (hax : a.1 < g.sx) (hay : a.2.1 < g.sy) (haz : a.2.2 < g.sz) :
    hasOOB NEIGHBORS_26 g a ↔ hasOOB NEIGHBORS_6 g a :=
  hasOOB_iff_n6 g NEIGHBORS_26 mem_n26_bounded
    (fun d hd => n18_subset_n26 d (n6_subset_n18 d hd)) a hax hay haz

/-- Claim C6: for every binary grid, looser adjacency never increases either
count: the component counts for 6, 18 and 26 connectivity are ordered
countComponents 6 at least countComponents 18 at least countComponents 26,
and the same ordering holds for countBubbles. -/
theorem C6_monotonicity (g : Grid) (hB : Binary g) :
    (∃ a b c, countComponents g 6 = .ok a ∧ countComponents g 18 = .ok b ∧
      countComponents g 26 = .ok c ∧ c ≤ b ∧ b ≤ a) ∧
    (∃ a b c, countBubbles g 6 = .ok a ∧ countBubbles g 18 = .ok b ∧
      countBubbles g 26 = .ok c ∧ c ≤ b ∧ b ≤ a) := by
  constructor
  · refine ⟨(componentsSpec g NEIGHBORS_6).card, (componentsSpec g NEIGHBORS_18).card,
      (componentsSpec g NEIGHBORS_26).card,
      countComponents_eq_spec g 6 NEIGHBORS_6 (Or.inl ⟨rfl, rfl⟩),
      countComponents_eq_spec g 18 NEIGHBORS_18 (Or.inr (Or.inl ⟨rfl, rfl⟩)),
      countComponents_eq_spec g 26 NEIGHBORS_26 (Or.inr (Or.inr ⟨rfl, rfl⟩)), ?_, ?_⟩
    · exact componentsSpec_mono g NEIGHBORS_18 NEIGHBORS_26 n18_subset_n26 negClosed_n26
    · exact componentsSpec_mono g NEIGHBORS_6 NEIGHBORS_18 n6_subset_n18 negClosed_n18
  · refine ⟨(bubblesSpec g NEIGHBORS_6).card, (bubblesSpec g NEIGHBORS_18).card,
      (bubblesSpec g NEIGHBORS_26).card,
      countBubbles_eq_spec g 6 NEIGHBORS_6 (Or.inl ⟨rfl, rfl⟩),
      countBubbles_eq_spec g 18 NEIGHBORS_18 (Or.inr (Or.inl ⟨rfl, rfl⟩)),
      countBubbles_eq_spec g 26 NEIGHBORS_26 (Or.inr (Or.inr ⟨rfl, rfl⟩)), ?_, ?_⟩
    · refine bubblesSpec_mono g NEIGHBORS_18 NEIGHBORS_26 n18_subset_n26 negClosed_n26 ?_
      intro a ha
      obtain ⟨⟨h1, h2, h3⟩, _⟩ := (mem_emptyCells g a).mp ha
      exact (hasOOB_18_iff g a h1 h2 h3).trans (hasOOB_26_iff g a h1 h2 h3).symm
    · refine bubblesSpec_mono g NEIGHBORS_6 NEIGHBORS_18 n6_subset_n18 negClosed_n18 ?_
      intro a ha
      obtain ⟨⟨h1, h2, h3⟩, _⟩ := (mem_emptyCells g a).mp ha
      exact (hasOOB_18_iff g a h1 h2 h3).symm

/-- Witness for claim C6 on the hollow-center block. -/
theorem C6_monotonicity_witness :
    Binary gHole ∧
    ((∃ a b c, countComponents gHole 6 = .ok a ∧ countComponents gHole 18 = .ok b ∧
       countComponents gHole 26 = .ok c ∧ c ≤ b ∧ b ≤ a) ∧
     (∃ a b c, countBubbles gHole 6 = .ok a ∧ countBubbles gHole 18 = .ok b ∧
       countBubbles gHole 26 = .ok c ∧ c ≤ b ∧ b ≤ a)) :=
  ⟨by decide, C6_monotonicity gHole (by decide)⟩

/-- The NxNxN grid of all 1s (the solid block of the spec's P1 property). -/
def gAllOnes (n : Nat) : Grid := ⟨n, n, n, fun _ _ _ => 1⟩

lemma allOnes_step_x (n k y z : Nat) (hk : k + 1 < n) (hy : y < n) (hz : z < n) :
    stepRel (cellExpand NEIGHBORS_6) cellGood (gAllOnes n) (k + 1, y, z) (k, y, z) := by
  refine ⟨(some_mem_cellExpand NEIGHBORS_6 (gAllOnes n) _ _).mpr
    ⟨(-1, 0, 0), by decide, ?_, ?_⟩, rfl⟩
  · refine ⟨?_, ?_, ?_, ?_, ?_, ?_⟩ <;> simp only [gAllOnes] <;> omega
  · refine Prod.ext ?_ (Prod.ext ?_ ?_) <;> simp only <;> omega

lemma allOnes_step_y (n x k z : Nat) (hx : x < n) (hk : k + 1 < n) (hz : z < n) :
    stepRel (cellExpand NEIGHBORS_6) cellGood (gAllOnes n) (x, k + 1, z) (x, k, z) := by
  refine ⟨(some_mem_cellExpand NEIGHBORS_6 (gAllOnes n) _ _).mpr
    ⟨(0, -1, 0), by decide, ?_, ?_⟩, rfl⟩
  · refine ⟨?_, ?_, ?_, ?_, ?_, ?_⟩ <;> simp only [gAllOnes] <;> omega
  · refine Prod.ext ?_ (Prod.ext ?_ ?_) <;> simp only <;> omega

lemma allOnes_step_z (n x y k : Nat) (hx : x < n) (hy : y < n) (hk : k + 1 < n) :
    stepRel (cellExpand NEIGHBORS_6) cellGood (gAllOnes n) (x, y, k + 1) (x, y, k) := by
  refine ⟨(some_mem_cellExpand NEIGHBORS_6 (gAllOnes n) _ _).mpr
    ⟨(0, 0, -1), by decide, ?_, ?_⟩, rfl⟩
  · refine ⟨?_, ?_, ?_, ?_, ?_, ?_⟩ <;> simp only [gAllOnes] <;> omega
  · refine Prod.ext ?_ (Prod.ext ?_ ?_) <;> simp only <;> omega

lemma allOnes_reach_origin (n : Nat) :
    ∀ s, ∀ x y z : Nat, x < n → y < n → z < n → x + y + z = s →
      reach (cellExpand NEIGHBORS_6) cellGood (gAllOnes n) (x, y, z) (0, 0, 0) := by
  intro s
  induction s using Nat.strong_induction_on with
  | _ s ih =>
    intro x y z hx hy hz hs
    cases x with
    | succ k =>
      exact Relation.ReflTransGen.head (allOnes_step_x n k y z hx hy hz)
        (ih (k + y + z) (by omega) k y z (by omega) hy hz rfl)
    | zero =>
      cases y with
      | succ k =>
        exact Relation.ReflTransGen.head (allOnes_step_y n 0 k z hx hy hz)
          (ih (0 + k + z) (by omega) 0 k z hx (by omega) hz rfl)
      | zero =>
        cases z with
        | succ k =>
          exact Relation.ReflTransGen.head (allOnes_step_z n 0 0 k hx hy hz)
            (ih (0 + 0 + k) (by omega) 0 0 k hx hy (by omega) rfl)
        | zero => exact Relation.ReflTransGen.refl

lemma allOnes_components_card (n : Nat) (hn : 1 ≤ n) :
    (componentsSpec (gAllOnes n) NEIGHBORS_6).card = 1 := by
  have horig : ((0, 0, 0) : Cell) ∈ solidCells (gAllOnes n) :=
    (mem_solidCells _ _).mpr ⟨⟨hn, hn, hn⟩, rfl⟩
  have hall : ∀ v ∈ solidCells (gAllOnes n),
      componentOf (cellExpand NEIGHBORS_6) cellGood (solidCells (gAllOnes n)) (gAllOnes n) v =
      componentOf (cellExpand NEIGHBORS_6) cellGood (solidCells (gAllOnes n)) (gAllOnes n)
        (0, 0, 0) := by
    intro v hv
    obtain ⟨⟨h1, h2, h3⟩, _⟩ := (mem_solidCells _ v).mp hv
    exact componentOf_eq_of_reach (cellExpand NEIGHBORS_6) cellGood
      (solidCells (gAllOnes n)) (gAllOnes n) (cell_stepT_solid NEIGHBORS_6 (gAllOnes n))
      (cell_symT_of_mem NEIGHBORS_6 (gAllOnes n) negClosed_n6 cellGood
        (solidCells (gAllOnes n)) (mem_solidCells (gAllOnes n)))
      (fun a ha => ((mem_solidCells _ a).mp ha).2) hv
      (by
        obtain ⟨vx, vy, vz⟩ := v
        exact allOnes_reach_origin n (vx + vy + vz) vx vy vz h1 h2 h3 rfl)
  have himg : componentsSpec (gAllOnes n) NEIGHBORS_6 =
      {componentOf (cellExpand NEIGHBORS_6) cellGood (solidCells (gAllOnes n)) (gAllOnes n)
        (0, 0, 0)} := by
    unfold componentsSpec classesOf
    apply Finset.Subset.antisymm
    · intro D hD
      obtain ⟨v, hv, rfl⟩ := Finset.mem_image.mp hD
      rw [hall v hv]
      exact Finset.mem_singleton_self _
    · intro D hD
      rw [Finset.mem_singleton] at hD
      subst hD
      exact Finset.mem_image_of_mem _ horig
  rw [himg, Finset.card_singleton]

/-- The eight corners of the unit cube at a voxel, in the order of
cube_vertices in the source (cube_size = 1). -/
def cubeVerts (c : Cell) : List Cell :=
  [(c.1, c.2.1, c.2.2), (c.1 + 1, c.2.1, c.2.2), (c.1 + 1, c.2.1 + 1, c.2.2),
   (c.1, c.2.1 + 1, c.2.2), (c.1, c.2.1, c.2.2 + 1), (c.1 + 1, c.2.1, c.2.2 + 1),
   (c.1 + 1, c.2.1 + 1, c.2.2 + 1), (c.1, c.2.1 + 1, c.2.2 + 1)]

/-- The is_clockwise parity test of the deduplicated path. -/
def cwVox (c : Cell) : Prop := (c.1 + c.2.1 + c.2.2) % 2 = 0

instance (c : Cell) : Decidable (cwVox c) := by unfold cwVox; infer_instance

/-- The six quads of a cube from its eight corner labels: the clockwise
orderings for even-parity voxels, the reversed orderings otherwise; these are
exactly the twelve index tuples written in the source. -/
def cubeFacesOf {β : Type} (v0 v1 v2 v3 v4 v5 v6 v7 : β) (cw : Bool) :
    List (β × β × β × β) :=
  if cw then
    [(v0, v1, v2, v3), (v4, v5, v6, v7), (v0, v1, v5, v4),
     (v1, v2, v6, v5), (v2, v3, v7, v6), (v3, v0, v4, v7)]
  else
    [(v1, v0, v3, v2), (v5, v4, v7, v6), (v1, v0, v4, v5),
     (v2, v1, v5, v6), (v3, v2, v6, v7), (v0, v3, v7, v4)]

/-- The surface voxels in scan order (the three nested loops filtered by the
surface mask). -/
def surfaceList (g : Grid) : List Cell :=
  (cellList g).filter (fun c => decide (surface_voxels g c.1 c.2.1 c.2.2))

/-- The vertex_map lookup: the index of a coordinate in the vertex list. -/
def idxOfV : List Cell → Cell → Nat
  | [], _ => 0
  | v :: rest, w => if w = v then 0 else idxOfV rest w + 1

/-- vertex_map insertion for one cube: append each of the eight corners that
has not been seen before, in corner order. -/
def addVerts (verts : List Cell) (c : Cell) : List Cell :=
  (cubeVerts c).foldl (fun vs v => if v ∈ vs then vs else vs ++ [v]) verts

/-- The six faces of one voxel as tuples of global vertex indices, after its
corners have been inserted. -/
def voxelFacesIdx (verts : List Cell) (c : Cell) : List (Nat × Nat × Nat × Nat) :=
  cubeFacesOf (idxOfV verts (c.1, c.2.1, c.2.2)) (idxOfV verts (c.1 + 1, c.2.1, c.2.2))
    (idxOfV verts (c.1 + 1, c.2.1 + 1, c.2.2)) (idxOfV verts (c.1, c.2.1 + 1, c.2.2))
    (idxOfV verts (c.1, c.2.1, c.2.2 + 1)) (idxOfV verts (c.1 + 1, c.2.1, c.2.2 + 1))
    (idxOfV verts (c.1 + 1, c.2.1 + 1, c.2.2 + 1))
    (idxOfV verts (c.1, c.2.1 + 1, c.2.2 + 1)) (decide (cwVox c))

/-- One voxel of the mesh loop: allocate the cube corners through the vertex
map, then append the six faces as index tuples. -/
def buildStep (st : List Cell × List (Nat × Nat × Nat × Nat)) (c : Cell) :
    List Cell × List (Nat × Nat × Nat × Nat) :=
  (addVerts st.1 c, st.2 ++ voxelFacesIdx (addVerts st.1 c) c)

/-- The vertex list and face multiset accumulated by the deduplicated path
over the surface voxels in scan order. -/
def buildMesh (g : Grid) : List Cell × List (Nat × Nat × Nat × Nat) :=
  (surfaceList g).foldl buildStep ([], [])

/-- All faces emitted by the deduplicated path, the multiset the face_count
dictionary tallies. -/
def allFaces (g : Grid) : List (Nat × Nat × Nat × Nat) := (buildMesh g).2

/-- faces_list: the faces kept by exact-duplicate removal, those occurring
exactly once across the whole grid (each such face occurs once in the
emission, so this list has the same length as the filtered dictionary). -/
def faces_list (g : Grid) : List (Nat × Nat × Nat × Nat) :=
  (allFaces g).filter (fun f => (allFaces g).count f == 1)

/-- The number of faces of the final deduplicated mesh. -/
def dedupFaceCount (g : Grid) : Nat := (faces_list g).length

/-- The same six-face emission with corner coordinates in place of vertex
indices, used to analyze the index tuples through the injective vertex map. -/
def voxelFacesCoord (c : Cell) : List (Cell × Cell × Cell × Cell) :=
  cubeFacesOf (c.1, c.2.1, c.2.2) (c.1 + 1, c.2.1, c.2.2) (c.1 + 1, c.2.1 + 1, c.2.2)
    (c.1, c.2.1 + 1, c.2.2) (c.1, c.2.1, c.2.2 + 1) (c.1 + 1, c.2.1, c.2.2 + 1)
    (c.1 + 1, c.2.1 + 1, c.2.2 + 1) (c.1, c.2.1 + 1, c.2.2 + 1) (decide (cwVox c))

/-- The coordinate-level face emission over all surface voxels. -/
def coordFaces (g : Grid) : List (Cell × Cell × Cell × Cell) :=
  (surfaceList g).flatMap voxelFacesCoord

/-- Apply a function to the four corners of a quad. -/
def mapFace {α β : Type} (f : α → β) (q : α × α × α × α) : β × β × β × β :=
  (f q.1, f q.2.1, f q.2.2.1, f q.2.2.2)

lemma mapFace_cubeFacesOf {α β : Type} (f : α → β)
    (a0 a1 a2 a3 a4 a5 a6 a7 : α) (cw : Bool) :
    (cubeFacesOf a0 a1 a2 a3 a4 a5 a6 a7 cw).map (mapFace f) =
      cubeFacesOf (f a0) (f a1) (f a2) (f a3) (f a4) (f a5) (f a6) (f a7) cw := by
  cases cw <;> rfl

lemma voxelFacesIdx_eq (verts : List Cell) (c : Cell) :
    voxelFacesIdx verts c = (voxelFacesCoord c).map (mapFace (idxOfV verts)) := by
  unfold voxelFacesIdx voxelFacesCoord
  rw [mapFace_cubeFacesOf]

lemma voxelFacesCoord_corners (c : Cell) :
    ∀ q ∈ voxelFacesCoord c, q.1 ∈ cubeVerts c ∧ q.2.1 ∈ cubeVerts c ∧
      q.2.2.1 ∈ cubeVerts c ∧ q.2.2.2 ∈ cubeVerts c := by
  intro q hq
  unfold voxelFacesCoord cubeFacesOf at hq
  unfold cubeVerts
  split at hq <;> simp only [List.mem_cons, List.not_mem_nil, or_false] at hq <;>
    rcases hq with rfl | rfl | rfl | rfl | rfl | rfl <;> simp

lemma vertFold_mono (l : List Cell) :
    ∀ (vs : List Cell) (v : Cell), v ∈ vs →
      v ∈ l.foldl (fun vs v => if v ∈ vs then vs else vs ++ [v]) vs := by
  induction l with
  | nil => intro vs v hv; exact hv
  | cons x rest ih =>
    intro vs v hv
    simp only [List.foldl_cons]
    by_cases hx : x ∈ vs
    · rw [if_pos hx]; exact ih vs v hv
    · rw [if_neg hx]; exact ih _ v (List.mem_append.mpr (Or.inl hv))

lemma vertFold_mem (l : List Cell) :
    ∀ (vs : List Cell) (v : Cell), v ∈ l →
      v ∈ l.foldl (fun vs v => if v ∈ vs then vs else vs ++ [v]) vs := by
  induction l with
  | nil => intro vs v hv; simp at hv
  | cons x rest ih =>
    intro vs v hv
    simp only [List.foldl_cons]
    rcases List.mem_cons.mp hv with rfl | hv'
    · by_cases hx : v ∈ vs
      · rw [if_pos hx]; exact vertFold_mono rest vs v hx
      · rw [if_neg hx]
        exact vertFold_mono rest _ v (List.mem_append.mpr (Or.inr (List.mem_singleton.mpr rfl)))
    · by_cases hx : x ∈ vs
      · rw [if_pos hx]; exact ih vs v hv'
      · rw [if_neg hx]; exact ih _ v hv'

lemma vertFold_prefix (l : List Cell) :
    ∀ vs : List Cell, ∃ t,
      l.foldl (fun vs v => if v ∈ vs then vs else vs ++ [v]) vs = vs ++ t := by
  induction l with
  | nil => intro vs; exact ⟨[], by simp⟩
  | cons x rest ih =>
    intro vs
    simp only [List.foldl_cons]
    by_cases hx : x ∈ vs
    · rw [if_pos hx]; exact ih vs
    · rw [if_neg hx]
      obtain ⟨t, ht⟩ := ih (vs ++ [x])
      exact ⟨[x] ++ t, by rw [ht, List.append_assoc]⟩

lemma vertFold_nodup (l : List Cell) :
    ∀ vs : List Cell, vs.Nodup →
      (l.foldl (fun vs v => if v ∈ vs then vs else vs ++ [v]) vs).Nodup := by
  induction l with
  | nil => intro vs h; exact h
  | cons x rest ih =>
    intro vs h
    simp only [List.foldl_cons]
    by_cases hx : x ∈ vs
    · rw [if_pos hx]; exact ih vs h
    · rw [if_neg hx]
      refine ih _ ?_
      rw [List.nodup_append]
      exact ⟨h, List.nodup_singleton x, by simpa using hx⟩

lemma idxOfV_append (l t : List Cell) (v : Cell) (hv : v ∈ l) :
    idxOfV (l ++ t) v = idxOfV l v := by
  induction l with
  | nil => simp at hv
  | cons x rest ih =>
    by_cases hx : v = x
    · subst hx
      simp [idxOfV]
    · rcases List.mem_cons.mp hv with h | h
      · exact absurd h hx
      · simp only [List.cons_append, idxOfV, if_neg hx, List.append_eq]
        rw [ih h]

lemma idxOfV_inj (l : List Cell) (hl : l.Nodup) :
    ∀ {a b : Cell}, a ∈ l → b ∈ l → idxOfV l a = idxOfV l b → a = b := by
  induction l with
  | nil => intro a b ha; simp at ha
  | cons x rest ih =>
    intro a b ha hb h
    rw [List.nodup_cons] at hl
    by_cases hax : a = x <;> by_cases hbx : b = x
    · rw [hax, hbx]
    · subst hax
      simp [idxOfV, hbx] at h
    · subst hbx
      simp [idxOfV, hax] at h
    · simp only [idxOfV, if_neg hax, if_neg hbx] at h
      rcases List.mem_cons.mp ha with h' | ha'
      · exact absurd h' hax
      rcases List.mem_cons.mp hb with h' | hb'
      · exact absurd h' hbx
      exact ih hl.2 ha' hb' (by omega)

lemma addVerts_mono (verts : List Cell) (c : Cell) {v : Cell} (hv : v ∈ verts) :
    v ∈ addVerts verts c := vertFold_mono _ _ _ hv

lemma addVerts_mem (verts : List Cell) (c : Cell) {v : Cell} (hv : v ∈ cubeVerts c) :
    v ∈ addVerts verts c := vertFold_mem _ _ _ hv

lemma addVerts_prefix (verts : List Cell) (c : Cell) :
    ∃ t, addVerts verts c = verts ++ t := vertFold_prefix _ _

lemma addVerts_nodup (verts : List Cell) (c : Cell) (h : verts.Nodup) :
    (addVerts verts c).Nodup := vertFold_nodup _ _ h

lemma buildMesh_fold (l : List Cell) :
    ∀ (vs0 : List Cell) (fs0 : List (Nat × Nat × Nat × Nat)),
      (∃ t, (l.foldl buildStep (vs0, fs0)).1 = vs0 ++ t) ∧
      (∀ c ∈ l, ∀ w ∈ cubeVerts c, w ∈ (l.foldl buildStep (vs0, fs0)).1) ∧
      (vs0.Nodup → (l.foldl buildStep (vs0, fs0)).1.Nodup) ∧
      ((l.foldl buildStep (vs0, fs0)).2 =
        fs0 ++ (l.flatMap voxelFacesCoord).map
          (mapFace (idxOfV (l.foldl buildStep (vs0, fs0)).1))) := by
  induction l with
  | nil =>
    intro vs0 fs0
    exact ⟨⟨[], by simp⟩, by simp, fun h => h, by simp⟩
  | cons c rest ih =>
    intro vs0 fs0
    simp only [List.foldl_cons, buildStep]
    obtain ⟨⟨t, hpre⟩, hmemc, hnd, hfaces⟩ :=
      ih (addVerts vs0 c) (fs0 ++ voxelFacesIdx (addVerts vs0 c) c)
    have hv1mem : ∀ w ∈ addVerts vs0 c,
        w ∈ (rest.foldl buildStep (addVerts vs0 c,
          fs0 ++ voxelFacesIdx (addVerts vs0 c) c)).1 := by
      intro w hw
      rw [hpre]
      exact List.mem_append.mpr (Or.inl hw)
    refine ⟨?_, ?_, ?_, ?_⟩
    · obtain ⟨t0, ht0⟩ := addVerts_prefix vs0 c
      exact ⟨t0 ++ t, by rw [hpre, ht0, List.append_assoc]⟩
    · intro c' hc' w hw
      rcases List.mem_cons.mp hc' with rfl | hc''
      · exact hv1mem w (addVerts_mem vs0 c' hw)
      · exact hmemc c' hc'' w hw
    · intro h0
      exact hnd (addVerts_nodup vs0 c h0)
    · have hstep : voxelFacesIdx (addVerts vs0 c) c =
          (voxelFacesCoord c).map (mapFace (idxOfV (addVerts vs0 c ++ t))) := by
        rw [voxelFacesIdx_eq]
        apply List.map_congr_left
        intro q hq
        obtain ⟨h1, h2, h3, h4⟩ := voxelFacesCoord_corners c q hq
        unfold mapFace
        rw [idxOfV_append _ _ _ (addVerts_mem vs0 c h1),
          idxOfV_append _ _ _ (addVerts_mem vs0 c h2),
          idxOfV_append _ _ _ (addVerts_mem vs0 c h3),
          idxOfV_append _ _ _ (addVerts_mem vs0 c h4)]
      rw [hfaces, hpre, hstep, List.flatMap_cons, List.map_append, List.append_assoc]

lemma allFaces_eq_map (g : Grid) :
    allFaces g = (coordFaces g).map (mapFace (idxOfV (buildMesh g).1)) := by
  obtain ⟨_, _, _, hfaces⟩ := buildMesh_fold (surfaceList g) [] []
  unfold allFaces buildMesh coordFaces
  rw [hfaces]
  rfl

lemma buildMesh_vertices_nodup (g : Grid) : (buildMesh g).1.Nodup := by
  obtain ⟨_, _, hnd, _⟩ := buildMesh_fold (surfaceList g) [] []
  exact hnd List.nodup_nil

lemma coordFaces_corners_mem (g : Grid) :
    ∀ q ∈ coordFaces g, q.1 ∈ (buildMesh g).1 ∧ q.2.1 ∈ (buildMesh g).1 ∧
      q.2.2.1 ∈ (buildMesh g).1 ∧ q.2.2.2 ∈ (buildMesh g).1 := by
  intro q hq
  obtain ⟨c, hc, hqc⟩ := List.mem_flatMap.mp hq
  obtain ⟨h1, h2, h3, h4⟩ := voxelFacesCoord_corners c q hqc
  obtain ⟨_, hmemc, _, _⟩ := buildMesh_fold (surfaceList g) [] []
  exact ⟨hmemc c hc _ h1, hmemc c hc _ h2, hmemc c hc _ h3, hmemc c hc _ h4⟩

lemma mapFace_inj_on_mesh (g : Grid) {q1 q2 : Cell × Cell × Cell × Cell}
    (h1 : q1 ∈ coordFaces g) (h2 : q2 ∈ coordFaces g)
    (h : mapFace (idxOfV (buildMesh g).1) q1 = mapFace (idxOfV (buildMesh g).1) q2) :
    q1 = q2 := by
  obtain ⟨a1, b1, c1, d1⟩ := coordFaces_corners_mem g q1 h1
  obtain ⟨a2, b2, c2, d2⟩ := coordFaces_corners_mem g q2 h2
  have hnd := buildMesh_vertices_nodup g
  unfold mapFace at h
  rw [Prod.mk.injEq, Prod.mk.injEq, Prod.mk.injEq] at h
  obtain ⟨e1, e2, e3, e4⟩ := h
  obtain ⟨x1, y1, z1, w1⟩ := q1
  obtain ⟨x2, y2, z2, w2⟩ := q2
  simp only at a1 b1 c1 d1 a2 b2 c2 d2 e1 e2 e3 e4
  have k1 := idxOfV_inj _ hnd a1 a2 e1
  have k2 := idxOfV_inj _ hnd b1 b2 e2
  have k3 := idxOfV_inj _ hnd c1 c2 e3
  have k4 := idxOfV_inj _ hnd d1 d2 e4
  rw [k1, k2, k3, k4]

lemma count_map_inj {α β : Type} [BEq α] [LawfulBEq α] [BEq β] [LawfulBEq β]
    (F : α → β) (f : α) :
    ∀ l : List α, (∀ x ∈ l, F x = F f → x = f) →
      (l.map F).count (F f) = l.count f := by
  intro l
  induction l with
  | nil => intro _; rfl
  | cons x rest ih =>
    intro hinj
    rw [List.map_cons, List.count_cons, List.count_cons,
      ih (fun y hy => hinj y (List.mem_cons_of_mem _ hy))]
    by_cases hx : x = f
    · subst hx; simp
    · have hF : F x ≠ F f := fun hFx => hx (hinj x (List.mem_cons_self _ _) hFx)
      simp [beq_iff_eq, hx, hF]

/-- The six face directions of a voxel, named as in the source comments
(base, top, front, right, back, left). -/
inductive Dir : Type where
  | base
  | top
  | front
  | right
  | back
  | left
deriving DecidableEq

/-- The face directions in source emission order. -/
def dirList : List Dir := [.base, .top, .front, .right, .back, .left]

/-- The outward axis offset of each face direction. -/
def dirVec : Dir → Offset
  | .base => (0, 0, -1)
  | .top => (0, 0, 1)
  | .front => (0, -1, 0)
  | .back => (0, 1, 0)
  | .right => (1, 0, 0)
  | .left => (-1, 0, 0)

/-- Whether the direction lies along the first or second axis; these are the
directions whose shared faces cancel under the parity winding. -/
def isXY : Dir → Bool
  | .front => true
  | .back => true
  | .right => true
  | .left => true
  | .base => false
  | .top => false

/-- The opposite face direction. -/
def oppDir : Dir → Dir
  | .base => .top
  | .top => .base
  | .front => .back
  | .back => .front
  | .right => .left
  | .left => .right

/-- The neighbor position one step along a face direction. -/
def stepToDir (a : Cell) (d : Dir) (b : Cell) : Prop :=
  (b.1 : Int) = (a.1 : Int) + (dirVec d).1 ∧
  (b.2.1 : Int) = (a.2.1 : Int) + (dirVec d).2.1 ∧
  (b.2.2 : Int) = (a.2.2 : Int) + (dirVec d).2.2

instance (a : Cell) (d : Dir) (b : Cell) : Decidable (stepToDir a d b) := by
  unfold stepToDir; infer_instance

/-- The coordinate quad emitted for an even-parity voxel in a direction. -/
def cwFaceT : Cell → Dir → Cell × Cell × Cell × Cell
  | (x, y, z), .base => ((x, y, z), (x + 1, y, z), (x + 1, y + 1, z), (x, y + 1, z))
  | (x, y, z), .top =>
    ((x, y, z + 1), (x + 1, y, z + 1), (x + 1, y + 1, z + 1), (x, y + 1, z + 1))
  | (x, y, z), .front => ((x, y, z), (x + 1, y, z), (x + 1, y, z + 1), (x, y, z + 1))
  | (x, y, z), .right =>
    ((x + 1, y, z), (x + 1, y + 1, z), (x + 1, y + 1, z + 1), (x + 1, y, z + 1))
  | (x, y, z), .back =>
    ((x + 1, y + 1, z), (x, y + 1, z), (x, y + 1, z + 1), (x + 1, y + 1, z + 1))
  | (x, y, z), .left => ((x, y + 1, z), (x, y, z), (x, y, z + 1), (x, y + 1, z + 1))

/-- The coordinate quad emitted for an odd-parity voxel in a direction. -/
def ccwFaceT : Cell → Dir → Cell × Cell × Cell × Cell
  | (x, y, z), .base => ((x + 1, y, z), (x, y, z), (x, y + 1, z), (x + 1, y + 1, z))
  | (x, y, z), .top =>
    ((x + 1, y, z + 1), (x, y, z + 1), (x, y + 1, z + 1), (x + 1, y + 1, z + 1))
  | (x, y, z), .front => ((x + 1, y, z), (x, y, z), (x, y, z + 1), (x + 1, y, z + 1))
  | (x, y, z), .right =>
    ((x + 1, y + 1, z), (x + 1, y, z), (x + 1, y, z + 1), (x + 1, y + 1, z + 1))
  | (x, y, z), .back =>
    ((x, y + 1, z), (x + 1, y + 1, z), (x + 1, y + 1, z + 1), (x, y + 1, z + 1))
  | (x, y, z), .left => ((x, y, z), (x, y + 1, z), (x, y + 1, z + 1), (x, y, z + 1))

/-- The coordinate quad a voxel emits in a direction, winding chosen by
parity. -/
def faceT (c : Cell) (d : Dir) : Cell × Cell × Cell × Cell :=
  if cwVox c then cwFaceT c d else ccwFaceT c d

lemma voxelFacesCoord_eq (c : Cell) : voxelFacesCoord c = dirList.map (faceT c) := by
  obtain ⟨x, y, z⟩ := c
  by_cases h : cwVox (x, y, z)
  · simp [voxelFacesCoord, cubeFacesOf, dirList, faceT, cwFaceT, h]
  · simp [voxelFacesCoord, cubeFacesOf, dirList, faceT, ccwFaceT, h]

set_option maxHeartbeats 3200000 in
lemma faceT_eq_iff (a b : Cell) (d e : Dir) :
    faceT a d = faceT b e ↔
      ((a = b ∧ d = e) ∨ (isXY d = true ∧ stepToDir a d b ∧ e = oppDir d)) := by
  obtain ⟨a1, a2, a3⟩ := a
  obtain ⟨b1, b2, b3⟩ := b
  by_cases ha : (a1 + a2 + a3) % 2 = 0 <;> by_cases hb : (b1 + b2 + b3) % 2 = 0 <;>
    cases d <;> cases e <;>
    simp [faceT, cwVox, cwFaceT, ccwFaceT, stepToDir, dirVec, isXY, oppDir,
      Prod.ext_iff, ha, hb] <;>
    omega

lemma dedupFaceCount_eq_coord (g : Grid) :
    dedupFaceCount g =
      (coordFaces g).countP (fun q => (coordFaces g).count q == 1) := by
  unfold dedupFaceCount faces_list
  rw [← List.countP_eq_length_filter, allFaces_eq_map]
  rw [List.countP_map]
  apply List.countP_congr
  intro q hq
  have hcnt : ((coordFaces g).map (mapFace (idxOfV (buildMesh g).1))).count
      (mapFace (idxOfV (buildMesh g).1) q) = (coordFaces g).count q :=
    count_map_inj _ q (coordFaces g) (fun x hx hFx => mapFace_inj_on_mesh g hx hq hFx)
  simp only [Function.comp_apply, hcnt]


lemma oppDir_oppDir (d : Dir) : oppDir (oppDir d) = d := by cases d <;> rfl

lemma isXY_oppDir (d : Dir) : isXY (oppDir d) = isXY d := by cases d <;> rfl

lemma stepToDir_opp (a b : Cell) (d : Dir) :
    stepToDir b (oppDir d) a ↔ stepToDir a d b := by
  cases d <;> simp only [stepToDir, oppDir, dirVec] <;> omega

lemma stepToDir_irrefl (a : Cell) (d : Dir) : ¬ stepToDir a d a := by
  cases d <;> simp only [stepToDir, dirVec] <;> omega

lemma stepToDir_unique (a : Cell) (d : Dir) {b1 b2 : Cell}
    (h1 : stepToDir a d b1) (h2 : stepToDir a d b2) : b1 = b2 := by
  obtain ⟨x1, y1, z1⟩ := b1
  obtain ⟨x2, y2, z2⟩ := b2
  simp only [stepToDir] at h1 h2
  obtain ⟨e1, e2, e3⟩ := h1
  obtain ⟨f1, f2, f3⟩ := h2
  simp only [Prod.mk.injEq]
  refine ⟨by omega, by omega, by omega⟩

lemma countP_flatMap {α β : Type} (l : List α) (f : α → List β) (p : β → Bool) :
    (l.flatMap f).countP p = (l.map (fun x => (f x).countP p)).sum := by
  induction l with
  | nil => rfl
  | cons x xs ih => simp [List.flatMap_cons, List.countP_append, ih]

lemma count_flatMap {α β : Type} [BEq β] (l : List α) (f : α → List β) (t : β) :
    (l.flatMap f).count t = (l.map (fun x => (f x).count t)).sum := by
  induction l with
  | nil => rfl
  | cons x xs ih => simp [List.flatMap_cons, List.count_append, ih]

lemma count_map_eq_countP {α β : Type} [BEq β] (l : List α) (F : α → β) (t : β) :
    (l.map F).count t = l.countP (fun x => F x == t) := by
  show (l.map F).countP (fun y => y == t) = _
  rw [List.countP_map]
  rfl

lemma sum_map_ite_count {α : Type} (l : List α) (p : α → Prop) [DecidablePred p] :
    (l.map (fun x => if p x then 1 else 0)).sum = l.countP (fun x => decide (p x)) := by
  induction l with
  | nil => rfl
  | cons x xs ih => by_cases h : p x <;> simp [List.countP_cons, h, ih] <;> omega

lemma countP_of_unique {α : Type} (l : List α) (hl : l.Nodup) (p : α → Prop)
    [DecidablePred p] (huniq : ∀ x y, p x → p y → x = y) :
    l.countP (fun x => decide (p x)) = if ∃ x ∈ l, p x then 1 else 0 := by
  induction l with
  | nil => simp
  | cons x xs ih =>
    have hnd := List.nodup_cons.mp hl
    by_cases hx : p x
    · have hzero : xs.countP (fun y => decide (p y)) = 0 := by
        rw [List.countP_eq_zero]
        intro a ha
        simp only [decide_eq_true_eq]
        intro hpa
        exact hnd.1 ((huniq a x hpa hx) ▸ ha)
      rw [List.countP_cons, hzero]
      rw [if_pos (⟨x, List.mem_cons_self x xs, hx⟩ : ∃ y ∈ x :: xs, p y)]
      simp [hx]
    · rw [List.countP_cons, ih hnd.2]
      have hiff : (∃ y ∈ x :: xs, p y) ↔ (∃ y ∈ xs, p y) := by
        constructor
        · rintro ⟨y, hy, hpy⟩
          rcases List.mem_cons.mp hy with h | h
          · exact absurd (h ▸ hpy) hx
          · exact ⟨y, h, hpy⟩
        · rintro ⟨y, hy, hpy⟩
          exact ⟨y, List.mem_cons_of_mem x hy, hpy⟩
      simp [hx, hiff]

lemma surfaceList_nodup (g : Grid) : (surfaceList g).Nodup :=
  (cellList_nodup g).filter _

lemma dirList_count (d : Dir) : dirList.count d = 1 := by cases d <;> decide

lemma inner_count (w v : Cell) (d : Dir) :
    (dirList.map (faceT w)).count (faceT v d) =
      (if w = v then 1 else 0) + (if isXY d = true ∧ stepToDir v d w then 1 else 0) := by
  rw [count_map_eq_countP]
  by_cases hw : w = v
  · subst hw
    rw [if_pos rfl, if_neg (fun hc => stepToDir_irrefl w d hc.2)]
    have hcong : ∀ e ∈ dirList, ((faceT w e == faceT w d) = true ↔ (e == d) = true) := by
      intro e _
      simp only [beq_iff_eq]
      rw [faceT_eq_iff]
      constructor
      · rintro (⟨-, h⟩ | ⟨-, hstep, -⟩)
        · exact h
        · exact absurd hstep (stepToDir_irrefl w e)
      · intro h
        exact Or.inl ⟨rfl, h⟩
    rw [List.countP_congr hcong]
    have h1 : dirList.countP (fun e => e == d) = 1 := dirList_count d
    omega
  · rw [if_neg hw]
    by_cases hQ : isXY d = true ∧ stepToDir v d w
    · rw [if_pos hQ]
      have hcong : ∀ e ∈ dirList,
          ((faceT w e == faceT v d) = true ↔ (e == oppDir d) = true) := by
        intro e _
        simp only [beq_iff_eq]
        rw [faceT_eq_iff]
        constructor
        · rintro (⟨hwv, -⟩ | ⟨-, -, hd⟩)
          · exact absurd hwv hw
          · rw [hd, oppDir_oppDir]
        · intro he
          subst he
          refine Or.inr ⟨?_, ?_, ?_⟩
          · rw [isXY_oppDir]
            exact hQ.1
          · exact (stepToDir_opp v w d).mpr hQ.2
          · exact (oppDir_oppDir d).symm
      rw [List.countP_congr hcong]
      have h1 : dirList.countP (fun e => e == oppDir d) = 1 := dirList_count (oppDir d)
      omega
    · rw [if_neg hQ]
      have hz : dirList.countP (fun e => faceT w e == faceT v d) = 0 := by
        rw [List.countP_eq_zero]
        intro e _ hbe
        rw [beq_iff_eq, faceT_eq_iff] at hbe
        rcases hbe with ⟨hwv, -⟩ | ⟨hxy, hstep, hd⟩
        · exact hw hwv
        · subst hd
          exact hQ ⟨by rw [isXY_oppDir]; exact hxy, (stepToDir_opp w v e).mpr hstep⟩
      omega

lemma coordFaces_eq_dir (g : Grid) :
    coordFaces g = (surfaceList g).flatMap (fun c => dirList.map (faceT c)) := by
  unfold coordFaces
  have h : voxelFacesCoord = fun c => dirList.map (faceT c) := funext voxelFacesCoord_eq
  rw [h]

lemma coordFaces_count (g : Grid) (v : Cell) (d : Dir) (hv : v ∈ surfaceList g) :
    (coordFaces g).count (faceT v d) =
      1 + (surfaceList g).countP (fun w => decide (isXY d = true ∧ stepToDir v d w)) := by
  rw [coordFaces_eq_dir, count_flatMap]
  rw [List.map_congr_left (fun w _ => inner_count w v d)]
  rw [List.sum_map_add]
  congr 1
  · rw [sum_map_ite_count]
    rw [countP_of_unique _ (surfaceList_nodup g) _ (fun x y hx hy => hx.trans hy.symm)]
    rw [if_pos (⟨v, hv, rfl⟩ : ∃ x ∈ surfaceList g, x = v)]
  · rw [sum_map_ite_count]

/-- The number of faces actually retained by exact-duplicate removal: each
surface voxel keeps one face per direction, except the x- and y-directions
that point at another surface voxel (only those duplicates coincide under the
parity winding). -/
def dedupRetainedSpec (g : Grid) : Nat :=
  ((surfaceList g).map (fun v => dirList.countP (fun d =>
    !(isXY d && decide (∃ w ∈ surfaceList g, stepToDir v d w))))).sum

/-- Whether the voxel has a solid neighbor one step along a face direction. -/
def dirNbrSolid (g : Grid) (v : Cell) (d : Dir) : Prop :=
  ∃ w ∈ solidCells g, stepToDir v d w

instance (g : Grid) (v : Cell) (d : Dir) : Decidable (dirNbrSolid g v d) := by
  unfold dirNbrSolid; infer_instance

/-- The face count asserted by the specification: per surface voxel, the
number of its six face directions not occupied by a solid neighbor. -/
def claimFaceCount (g : Grid) : Nat :=
  ((surfaceList g).map (fun v => dirList.countP (fun d =>
    !(decide (dirNbrSolid g v d))))).sum

lemma dedupFaceCount_eq_retained (g : Grid) :
    dedupFaceCount g = dedupRetainedSpec g := by
  rw [dedupFaceCount_eq_coord]
  unfold dedupRetainedSpec
  rw [coordFaces_eq_dir, countP_flatMap]
  refine congrArg List.sum (List.map_congr_left ?_)
  intro v hv
  rw [List.countP_map]
  apply List.countP_congr
  intro d _
  simp only [Function.comp_apply]
  rw [← coordFaces_eq_dir, coordFaces_count g v d hv]
  constructor
  · intro h
    rw [beq_iff_eq] at h
    have hP : (surfaceList g).countP
        (fun w => decide (isXY d = true ∧ stepToDir v d w)) = 0 := by omega
    have hnone := List.countP_eq_zero.mp hP
    rw [Bool.not_eq_true']
    cases hxy : isXY d with
    | false => rw [Bool.false_and]
    | true =>
      rw [Bool.true_and]
      rw [decide_eq_false_iff_not]
      rintro ⟨w, hwmem, hstep⟩
      exact hnone w hwmem (decide_eq_true ⟨hxy, hstep⟩)
  · intro h
    rw [Bool.not_eq_true'] at h
    rw [beq_iff_eq]
    have hP : (surfaceList g).countP
        (fun w => decide (isXY d = true ∧ stepToDir v d w)) = 0 := by
      rw [List.countP_eq_zero]
      intro w hw hdec
      have hval := of_decide_eq_true hdec
      rw [hval.1, Bool.true_and] at h
      exact absurd ⟨w, hw, hval.2⟩ (of_decide_eq_false h)
    omega

/-- The 1 by 1 by 2 all-solid grid, the smallest counterexample to the
claimed face-count formula. -/
def gBar : Grid := ⟨1, 1, 2, fun _ _ _ => 1⟩

/-- C1: the claim is wrong as stated. The parity-alternating winding makes
the two per-voxel copies of a shared face identical tuples only for x- and
y-adjacent pairs of surface voxels; for z-adjacent pairs the top face of the
lower voxel and the base face of the upper voxel list the same four corners
in different orders, so both copies survive exact-duplicate removal. The
retained face count therefore is not the sum over surface voxels of free
face directions: on the 1 by 1 by 2 all-solid grid the mesh keeps 12 faces
while the claimed formula gives 10. What does hold, proved here: the
retained count always equals the sum over surface voxels of directions that
are not an x- or y-direction toward another surface voxel. -/
theorem C1_dedup_faces :
    (∀ g : Grid, dedupFaceCount g = dedupRetainedSpec g) ∧
    (∀ (v w : Cell) (d : Dir), isXY d = true → stepToDir v d w →
      faceT v d = faceT w (oppDir d)) ∧
    (∀ x y z : Nat, faceT (x, y, z) Dir.top ≠ faceT (x, y, z + 1) Dir.base) ∧
    dedupFaceCount gBar = 12 ∧ claimFaceCount gBar = 10 := by
  refine ⟨dedupFaceCount_eq_retained, ?_, ?_, by decide, by decide⟩
  · intro v w d hxy hstep
    exact (faceT_eq_iff v w d (oppDir d)).mpr (Or.inr ⟨hxy, hstep, rfl⟩)
  · intro x y z h
    rcases (faceT_eq_iff _ _ _ _).mp h with ⟨heq, -⟩ | ⟨hxy, -, -⟩
    · have hz : z = z + 1 := congrArg (fun c : Cell => c.2.2) heq
      omega
    · exact Bool.noConfusion hxy

/-- Witness for C1: the shared face of the x-adjacent pair (0,0,0), (1,0,0)
coincides under the two windings. -/
theorem C1_dedup_faces_witness :
    faceT (0, 0, 0) Dir.right = faceT (1, 0, 0) Dir.left :=
  C1_dedup_faces.2.1 (0, 0, 0) (1, 0, 0) Dir.right (by decide) (by decide)

/-- C2: the component half of the claim holds — for every N at least 1 the
all-ones N by N by N grid has exactly one 6-connected component — but the
face-count half is wrong: Deduplicated extraction retains 6 times N squared
faces only for N = 1; for N = 2 it retains 32 faces rather than 24, because
the faces between z-adjacent voxels are internal yet never removed. -/
theorem C2_all_ones_cube :
    (∀ N : Nat, 1 ≤ N → countComponents (gAllOnes N) 6 = Except.ok 1) ∧
    dedupFaceCount (gAllOnes 1) = 6 * 1 ^ 2 ∧
    dedupFaceCount (gAllOnes 2) ≠ 6 * 2 ^ 2 ∧
    dedupFaceCount (gAllOnes 2) = 32 := by
  refine ⟨?_, by decide, by decide, by decide⟩
  intro N hN
  rw [countComponents_eq_spec (gAllOnes N) 6 NEIGHBORS_6 (Or.inl ⟨rfl, rfl⟩)]
  rw [allOnes_components_card N hN]

/-- Witness for C2: the 2 by 2 by 2 all-ones grid has one 6-connected
component. -/
theorem C2_all_ones_cube_witness :
    1 ≤ 2 ∧ countComponents (gAllOnes 2) 6 = Except.ok 1 :=
  ⟨by decide, C2_all_ones_cube.1 2 (by decide)⟩

/-- Counterexample to C1: on the 1 by 1 by 2 all-solid grid the deduplicated
mesh retains a different number of faces than the sum, over surface voxels,
of face directions without a solid neighbor. -/
theorem C1_counterexample : dedupFaceCount gBar ≠ claimFaceCount gBar := by decide

/-- Counterexample to C2: the all-ones 2 by 2 by 2 grid retains 32 faces in
Deduplicated mode, not 6 times 2 squared. -/
theorem C2_counterexample : dedupFaceCount (gAllOnes 2) ≠ 6 * 2 ^ 2 := by decide

end Voxel
